import Mathlib

/-!
Verification of the MetPy `metpy.mapping` interpolation core
(`interpolation.py`, `triangles.py`) against its natural-language
specification.

The Python source is shallowly embedded over exact rational arithmetic:
`float` becomes `ℚ`, numpy arrays become lists (with an explicit `shape`
for `ndarray` results), Python exceptions become `Except Err`, and the
IEEE-NaN "undetermined" sentinel becomes `none : Option ℚ`.

External library calls (scipy's `cKDTree.query_ball_point`,
`Delaunay`, `ConvexHull`) and the two repository modules that are not
part of the analysed sources (`metpy.mapping.polygons`,
`metpy.mapping.points`) are modelled at their specified interfaces; each
such definition says so in its doc comment.
-/

/-- A 2-D point, embedding the Python `(x, y)` coordinate pairs. -/
abbrev Pt : Type := ℚ × ℚ

/-- Python exceptions that the embedded code can raise. -/
inductive Err : Type where
  /-- `ZeroDivisionError`, raised by `circumcenter` on a zero determinant. -/
  | zeroDivision : Err
  /-- `TypeError`, raised by arithmetic on `None` (e.g. `kappa * gamma`). -/
  | typeError : Err
  /-- `QhullError`, raised by degenerate scipy `ConvexHull`/`Delaunay` input. -/
  | qhull : Err
  /-- `IndexError`, raised by indexing an empty selection. -/
  | indexError : Err
  deriving DecidableEq

instance {ε α : Type} [DecidableEq ε] [DecidableEq α] : DecidableEq (Except ε α) := fun x y =>
  match x, y with
  | .ok a, .ok b =>
      if h : a = b then .isTrue (by rw [h]) else .isFalse (fun hc => h (by cases hc; rfl))
  | .error a, .error b =>
      if h : a = b then .isTrue (by rw [h]) else .isFalse (fun hc => h (by cases hc; rfl))
  | .ok _, .error _ => .isFalse (fun hc => Except.noConfusion hc)
  | .error _, .ok _ => .isFalse (fun hc => Except.noConfusion hc)

/-- Embeds `triangles.dist_2`: squared Euclidean distance between
`(x0, y0)` and `(x1, y1)`. -/
def dist_2 (x0 y0 x1 y1 : ℚ) : ℚ :=
  let d0 := x1 - x0
  let d1 := y1 - y0
  d0 * d0 + d1 * d1

/-- Squared distance between two points (`triangles.distance` squared;
the source's `distance` is `sqrt ∘ dist_2`, and the embedding works with
squared quantities throughout so as to stay in exact arithmetic). -/
def distSq (p0 p1 : Pt) : ℚ :=
  dist_2 p0.1 p0.2 p1.1 p1.2

/-- The denominator determinant of `triangles.circumcenter`
(`d_div = a_x*(b_y-c_y) + b_x*(c_y-a_y) + c_x*(a_y-b_y)`); it is zero
exactly when the three points are collinear or coincident. -/
def d_div (pt0 pt1 pt2 : Pt) : ℚ :=
  pt0.1 * (pt1.2 - pt2.2) + pt1.1 * (pt2.2 - pt0.2) + pt2.1 * (pt0.2 - pt1.2)

/-- Embeds `triangles.circumcenter`.  The source raises
`ZeroDivisionError` when the determinant `d_div` is zero (line 181-182);
here that exception is the `Except.error Err.zeroDivision` value. -/
def circumcenter (pt0 pt1 pt2 : Pt) : Except Err Pt :=
  let a_x := pt0.1
  let a_y := pt0.2
  let b_x := pt1.1
  let b_y := pt1.2
  let c_x := pt2.1
  let c_y := pt2.2
  let bc_y_diff := b_y - c_y
  let ca_y_diff := c_y - a_y
  let ab_y_diff := a_y - b_y
  let cb_x_diff := c_x - b_x
  let ac_x_diff := a_x - c_x
  let ba_x_diff := b_x - a_x
  if a_x * bc_y_diff + b_x * ca_y_diff + c_x * ab_y_diff = 0 then
    .error .zeroDivision
  else
    let d_inv := (1 / 2) / (a_x * bc_y_diff + b_x * ca_y_diff + c_x * ab_y_diff)
    let a_mag := a_x * a_x + a_y * a_y
    let b_mag := b_x * b_x + b_y * b_y
    let c_mag := c_x * c_x + c_y * c_y
    let cx := (a_mag * bc_y_diff + b_mag * ca_y_diff + c_mag * ab_y_diff) * d_inv
    let cy := (a_mag * cb_x_diff + b_mag * ac_x_diff + c_mag * ba_x_diff) * d_inv
    .ok (cx, cy)

/-- The square of `triangles.circumcircle_radius`, in exact arithmetic.
The source computes `radius = a*b*c / (4*sqrt(prod))` with
`prod = s*(s-a)*(s-b)*(s-c)` (Heron), `s = (a+b+c)/2`, and
`a, b, c` the side lengths; its square is the rational function
`A*B*C / (2*A*B + 2*B*C + 2*C*A - A² - B² - C²)` of the squared side
lengths `A, B, C`, which is what this definition computes. -/
def circumradius_sq (pt0 pt1 pt2 : Pt) : ℚ :=
  let A := distSq pt0 pt1
  let B := distSq pt1 pt2
  let C := distSq pt2 pt0
  A * B * C / (2*A*B + 2*B*C + 2*C*A - A*A - B*B - C*C)

/-- A numpy `ndarray`: a shape together with the row-major flat data. -/
structure NDArray (α : Type) : Type where
  shape : List Nat
  data : List α
  deriving DecidableEq

/-- numpy's `ndarray.reshape`: same data under a new shape (the source
only ever reshapes to a shape whose product equals the element count;
on a mismatch numpy raises, which no analysed call path reaches, so the
model returns the array unchanged there). -/
def NDArray.reshape {α : Type} (a : NDArray α) (s : List Nat) : NDArray α :=
  if s.prod = a.data.length then ⟨s, a.data⟩ else a

/-- Modelled from the spec: `metpy.mapping.points.generate_grid_coords`
is not among the analysed sources.  Per §6 (and the module's test
`test_generate_grid_coords`) it pairs the row-major flattenings of
`grid_x` and `grid_y` into an `[M, 2]` list of points. -/
def generate_grid_coords (grid_x grid_y : NDArray ℚ) : List Pt :=
  grid_x.data.zip grid_y.data

/-- Exact-arithmetic model of scipy's `cKDTree.query_ball_point`
(spec §4.1: "all points with distance ≤ radius (inclusive boundary)"):
the indices of the observations whose Euclidean distance from `g` is at
most `r`, i.e. `0 ≤ r` and squared distance `≤ r²`. -/
def query_ball_point (obs : List Pt) (g : Pt) (r : ℚ) : List Nat :=
  (List.range obs.length).filter (fun j => 0 ≤ r ∧ distSq g (obs.getD j (0, 0)) ≤ r * r)

/-- Embeds `interpolation.barnes_weights` for one observation.  The
source computes `np.exp(-dist / (kappa * gamma))`; `np.exp` is modelled
by the parameter `expF` (it is transcendental, so it has no executable
exact counterpart), and a `None` value for `kappa` or `gamma` makes the
multiplication `kappa * gamma` raise `TypeError`, as in Python.  The
source's default for `gamma` is `1.0`. -/
def barnes_weights (expF : ℚ → ℚ) (dist : ℚ) (kappa gamma : Option ℚ) : Except Err ℚ :=
  match kappa, gamma with
  | some k, some g => .ok (expF (-dist / (k * g)))
  | _, _ => .error .typeError

/-- Embeds `interpolation.cressman_weights` for one observation:
`(r*r - dist) / (r*r + dist)` where `dist` is the squared distance. -/
def cressman_weights (dist : ℚ) (r : ℚ) : ℚ :=
  (r * r - dist) / (r * r + dist)

/-- Monadic map over `Except`, used to embed the source's sequential
per-grid-cell loops: the first raised exception aborts the whole loop. -/
def mapExcept {ε α β : Type} (f : α → Except ε β) : List α → Except ε (List β)
  | [] => .ok []
  | x :: xs => do
      let y ← f x
      let ys ← mapExcept f xs
      .ok (y :: ys)

/-- The body of the per-grid-cell loop of `interpolation.inverse_distance`
(lines 215-238), for one grid point `g` with its radius-query result `ms` (the source's `matches`):
below `min_neighbors` the cell keeps its NaN (`none`) initialisation;
otherwise the Cressman or Barnes value is computed.  `obs` is
`obs_tree.data` (the zipped observation coordinates) and `vals` the
source's `variable` array of observation values (`variable` is a Lean
keyword, so the binder is renamed). -/
def idCell (expF : ℚ → ℚ) (obs : List Pt) (vals : List ℚ) (r : ℚ)
    (gamma kappa : Option ℚ) (min_neighbors : Nat) (kind : String)
    (g : Pt) (ms : List Nat) : Except Err (Option ℚ) :=
  if ms.length ≥ min_neighbors then
    let dists := ms.map (fun j => distSq g (obs.getD j (0, 0)))
    let values := ms.map (fun j => vals.getD j 0)
    if kind = "cressman" then
      let weights := dists.map (fun d => cressman_weights d r)
      let total_weights := weights.sum
      .ok (some ((weights.zip values).map (fun wv => wv.2 * (wv.1 / total_weights))).sum)
    else if kind = "barnes" then do
      let weights ← mapExcept (fun d => barnes_weights expF d kappa (some 1)) dists
      let weights_ ← mapExcept (fun d => barnes_weights expF d kappa gamma) dists
      let total_weights := weights.sum
      let g0 := ((values.zip weights).map (fun vw => vw.1 * (vw.2 / total_weights))).sum
      let total_weights_ := weights_.sum
      .ok (some (g0 + ((values.zip weights_).map
        (fun vw => (vw.1 - g0) * (vw.2 / total_weights_))).sum))
    else
      -- the source has no `else` branch: a cell with an unknown `kind`
      -- is left at its NaN initialisation
      .ok none
  else
    .ok none

/-- Embeds `interpolation.inverse_distance`.  Note that the source's
final `img.reshape(grid_x.shape)` (line 240) is a plain expression
statement whose result is discarded, so the returned array keeps the
flat shape `[M]` it was created with. -/
def inverse_distance (expF : ℚ → ℚ) (xp yp vals : List ℚ)
    (grid_x grid_y : NDArray ℚ) (r : ℚ) (gamma kappa : Option ℚ)
    (min_neighbors : Nat) (kind : String) : Except Err (NDArray (Option ℚ)) := do
  let obs := xp.zip yp
  let grid_points := generate_grid_coords grid_x grid_y
  let indices := grid_points.map (fun g => query_ball_point obs g r)
  let cells ← mapExcept
    (fun gm => idCell expF obs vals r gamma kappa min_neighbors kind gm.1 gm.2)
    (grid_points.zip indices)
  let img : NDArray (Option ℚ) := ⟨[grid_points.length], cells⟩
  let _ := img.reshape grid_x.shape
  .ok img

/-- scipy `Delaunay` output as consumed by the source: the input points
(`tri.points`; scipy keeps them equal to the input coordinate pairs),
the simplices as index triples (`tri.simplices`), and the point-location
query `tri.find_simplex`, which is `≥ 0` exactly when the query point
lies inside the convex hull of the observations (spec §4.2).  The
triangulation itself is built by the external library, so the embedding
takes its output as data. -/
structure Triangulation : Type where
  points : List Pt
  simplices : List (Nat × Nat × Nat)
  find_simplex : Pt → Int

/-- One entry of `find_natural_neighbors`' `triangle_info` cache:
circumcenter and (squared) circumradius of one simplex. -/
structure TriInfo : Type where
  cc : Pt
  r2 : ℚ
  deriving DecidableEq

/-- The `for qualifier in qualifiers` loop of
`triangles.find_natural_neighbors` (lines 240-244) for simplex `i`:
appends `i` to the member list of every grid point that lies within the
simplex's circumcircle (`tree.query_ball_point(cc, r)`, i.e. squared
distance `≤ r²`; the queried radius is a real square root, hence
nonnegative) and inside the convex hull (`in_triangulation`). -/
def appendQualifier (tri : Triangulation) (cc : Pt) (r2 : ℚ) (i : Nat) :
    List Pt → List (List Nat) → List (List Nat)
  | g :: gs, l :: ls =>
      (if tri.find_simplex g ≥ 0 ∧ distSq cc g ≤ r2 then l ++ [i] else l)
        :: appendQualifier tri cc r2 i gs ls
  | _, _ => []

/-- Monadic fold over `Except`, embedding sequential loops whose body
can raise: the first raised exception aborts the remaining iterations. -/
def foldlExcept {ε σ α : Type} (f : σ → α → Except ε σ) (init : σ) :
    List α → Except ε σ
  | [] => .ok init
  | x :: xs => do
      let s ← f init x
      foldlExcept f s xs

/-- The body of the simplex loop of `triangles.find_natural_neighbors`
(lines 231-244): compute circumcenter and circumradius of simplex `i`
(the uncaught `ZeroDivisionError` of `circumcenter` propagates), cache
them in `triangle_info`, and record `i` with every qualifying grid
point. -/
def fnnStep (tri : Triangulation) (grid_points : List Pt)
    (acc : List (List Nat) × List TriInfo) (i : Nat) :
    Except Err (List (List Nat) × List TriInfo) := do
  let s := tri.simplices.getD i (0, 0, 0)
  let pa := tri.points.getD s.1 (0, 0)
  let pb := tri.points.getD s.2.1 (0, 0)
  let pc := tri.points.getD s.2.2 (0, 0)
  let cc ← circumcenter pa pb pc
  let r2 := circumradius_sq pa pb pc
  .ok (appendQualifier tri cc r2 i grid_points acc.1, acc.2 ++ [⟨cc, r2⟩])

/-- Embeds `triangles.find_natural_neighbors`: member lists (one per
grid point, initially empty) and the per-simplex geometry cache. -/
def find_natural_neighbors (tri : Triangulation) (grid_points : List Pt) :
    Except Err (List (List Nat) × List TriInfo) :=
  foldlExcept (fnnStep tri grid_points) (grid_points.map (fun _ => []), [])
    (List.range tri.simplices.length)

/-- The three directed edges `(v[i], v[(i+1) % 3])` that triangle `t`
contributes in `triangles.find_local_boundary` (lines 276-279). -/
def triEdges (simplices : List (Nat × Nat × Nat)) (t : Nat) : List (Nat × Nat) :=
  let s := simplices.getD t (0, 0, 0)
  [(s.1, s.2.1), (s.2.1, s.2.2), (s.2.2, s.1)]

/-- One edge insertion of `triangles.find_local_boundary`
(lines 281-288): if the edge or its reverse is already present it is
removed (first occurrence, like Python's `list.remove`), otherwise the
edge is appended. -/
def addEdge (edges : List (Nat × Nat)) (e : Nat × Nat) : List (Nat × Nat) :=
  if e ∈ edges then edges.erase e
  else if (e.2, e.1) ∈ edges then edges.erase (e.2, e.1)
  else edges ++ [e]

/-- Embeds `triangles.find_local_boundary`: fold the edge-cancelling
insertion over the three edges of every listed triangle. -/
def find_local_boundary (simplices : List (Nat × Nat × Nat)) (tris : List Nat) :
    List (Nat × Nat) :=
  tris.foldl (fun acc t => (triEdges simplices t).foldl addEdge acc) []

/-- Fuelled traversal for `order_edges`: from vertex `pt`, repeatedly
take the first remaining edge incident to `pt`, orient it away from
`pt`, and continue from its other endpoint. -/
def order_edges_go (pt : Nat) (remaining : List (Nat × Nat)) :
    Nat → List (Nat × Nat)
  | 0 => []
  | fuel + 1 =>
      match remaining.find? (fun f => f.1 == pt || f.2 == pt) with
      | none => []
      | some f =>
          let nxt := if f.1 = pt then f.2 else f.1
          (pt, nxt) :: order_edges_go nxt (remaining.erase f) fuel

/-- Modelled from the spec: `metpy.mapping.polygons.order_edges` is not
among the analysed sources.  Per §4.5 it starts from one boundary edge
and repeatedly finds the next edge sharing the current endpoint,
producing a single closed cyclic traversal as a list of directed
segments. -/
def order_edges (edges : List (Nat × Nat)) : List (Nat × Nat) :=
  match edges with
  | [] => []
  | e :: rest => e :: order_edges_go e.2 rest rest.length

/-- Cross product of `(o → a)` and `(o → b)`, the left-turn test of the
convex-hull construction. -/
def crossP (o a b : Pt) : ℚ :=
  (a.1 - o.1) * (b.2 - o.2) - (a.2 - o.2) * (b.1 - o.1)

/-- Lexicographic insertion, for sorting points before the hull scan. -/
def insertPt (p : Pt) : List Pt → List Pt
  | [] => [p]
  | q :: qs =>
      if p.1 < q.1 ∨ (p.1 = q.1 ∧ p.2 ≤ q.2) then p :: q :: qs
      else q :: insertPt p qs

/-- Lexicographic insertion sort of a point list. -/
def sortPts (l : List Pt) : List Pt := l.foldr insertPt []

/-- One step of the monotone-chain scan: pop while the last two chain
points and `p` do not make a strict left turn (`acc` holds the chain in
reverse). -/
def chainPush (acc : List Pt) (p : Pt) : List Pt :=
  match acc with
  | b :: a :: rest => if crossP a b p ≤ 0 then chainPush (a :: rest) p else p :: b :: a :: rest
  | _ => p :: acc

/-- Half (lower or upper) hull of an ordered point list. -/
def halfHull (pts : List Pt) : List Pt := (pts.foldl chainPush []).reverse

/-- Andrew monotone-chain convex hull: counter-clockwise vertex cycle. -/
def convex_hull_pts (l : List Pt) : List Pt :=
  let s := sortPts l
  (halfHull s).dropLast ++ (halfHull s.reverse).dropLast

/-- Exact-arithmetic model of scipy's `ConvexHull(polygon).vertices` as
used in `natural_neighbor` line 88 (it indexes `polygon`, so the model
returns the hull points themselves, in counter-clockwise cycle order):
qhull raises `QhullError` when the input is not full-dimensional, i.e.
when fewer than three hull vertices exist. -/
def ConvexHullVertices (l : List Pt) : Except Err (List Pt) :=
  let h := convex_hull_pts l
  if h.length < 3 then .error .qhull else .ok h

/-- Twice the signed area of the polygon with vertex cycle `l`
(shoelace formula). -/
def shoelace (l : List Pt) : ℚ :=
  match l with
  | [] => 0
  | p :: ps =>
      ((l.zip (ps ++ [p])).map (fun ab => ab.1.1 * ab.2.2 - ab.1.2 * ab.2.1)).sum

/-- Modelled from the spec: `metpy.mapping.polygons.area` is not among
the analysed sources.  Per §4.5 it computes the area of a polygon by
re-ordering the supplied points via convex hull and applying the
shoelace formula; the area of a polygon is nonnegative, hence the
absolute value. -/
def polygon_area (l : List Pt) : ℚ := |shoelace (convex_hull_pts l)| / 2

/-- The source's observation-value lookup in `natural_neighbor` line 89,
`variable[(tri.points[p2][0] == xp) & (tri.points[p2][1] == yp)][0]`:
the value of the first observation whose coordinates equal `p`; an
empty selection makes the trailing `[0]` raise `IndexError`. -/
def lookup_value (p : Pt) (xp yp vals : List ℚ) : Except Err ℚ :=
  match ((xp.zip yp).zip vals).find? (fun cv => cv.1.1 == p.1 && cv.1.2 == p.2) with
  | some cv => .ok cv.2
  | none => .error .indexError

/-- The mutable state of the boundary walk in `natural_neighbor`
(lines 57-100): the polygon of circumcenters being accumulated, the
`area_list` of (already value-weighted) per-vertex contributions, the
running `total_area`, and the walk vertices `p1`, `p2`. -/
structure WalkState : Type where
  polygon : List Pt
  area_list : List ℚ
  total_area : ℚ
  p1 : Nat
  p2 : Nat
  deriving DecidableEq

/-- The inner `for check_tri in neighbors` loop of `natural_neighbor`
(lines 80-82): the cached circumcenters of the neighbour triangles
incident to vertex `p2`, in `neighbors` order. -/
def incidentCCs (tri : Triangulation) (info : List TriInfo)
    (neighbors : List Nat) (p2 : Nat) : List Pt :=
  (neighbors.filter (fun t =>
      let s := tri.simplices.getD t (0, 0, 0)
      p2 = s.1 ∨ p2 = s.2.1 ∨ p2 = s.2.2)).map
    (fun t => (info.getD t ⟨(0, 0), 0⟩).cc)

/-- One iteration `i` of the boundary walk of `natural_neighbor`
(lines 71-100).  A `ZeroDivisionError` from the circumcenter of
`(grid, p3, p2)` is caught by the `except` clause, which appends a zero
to `area_list` and `continue`s, leaving `polygon`, `total_area`, `p1`
and `p2` untouched.  On success the sub-polygon is closed with the
circumcenters incident to `p2`, its convex-hull area is accumulated,
and the walk advances (`p1 = p2; p2 = p3`).  `ConvexHull` and the value
lookup sit outside the `try`, so their failures propagate. -/
def nnStep (tri : Triangulation) (info : List TriInfo) (neighbors : List Nat)
    (ev : List Nat) (xp yp vals : List ℚ) (grid : Pt)
    (s : WalkState) (i : Nat) : Except Err WalkState :=
  let p3 := ev.getD ((i + 2) % ev.length) 0
  match circumcenter grid (tri.points.getD p3 (0, 0)) (tri.points.getD s.p2 (0, 0)) with
  | .error _ => .ok { s with area_list := s.area_list ++ [0] }
  | .ok c2 => do
      let polygon := s.polygon ++ [c2] ++ incidentCCs tri info neighbors s.p2
      let pts ← ConvexHullVertices polygon
      let value ← lookup_value (tri.points.getD s.p2 (0, 0)) xp yp vals
      let cur_area := polygon_area pts
      .ok { polygon := [c2],
            area_list := s.area_list ++ [cur_area * value],
            total_area := s.total_area + cur_area,
            p1 := s.p2,
            p2 := p3 }

/-- The boundary walk of `natural_neighbor` for one grid point with
neighbour set `neighbors` (lines 53-100): local boundary, ordered edge
vertices, the pre-loop circumcenter `c1` of `(grid, p1, p2)` — which
sits outside any `try`, so its `ZeroDivisionError` propagates — and the
iteration over all boundary positions.  Fewer than two edge vertices
would make `edge_vertices[1]` raise `IndexError`. -/
def nnWalk (tri : Triangulation) (info : List TriInfo) (neighbors : List Nat)
    (xp yp vals : List ℚ) (grid : Pt) : Except Err WalkState :=
  let edges := find_local_boundary tri.simplices neighbors
  let ev := (order_edges edges).map (fun seg => seg.1)
  match ev with
  | p1 :: p2 :: _ => do
      let c1 ← circumcenter grid (tri.points.getD p1 (0, 0)) (tri.points.getD p2 (0, 0))
      foldlExcept (nnStep tri info neighbors ev xp yp vals grid)
        ⟨[c1], [], 0, p1, p2⟩ (List.range ev.length)
  | _ => .error .indexError

/-- The per-cell value of `natural_neighbor` (lines 102-103): after the
walk, `weighted_sum / total_area` when `total_area > 0` (the source
computes it as `sum([x / total_area for x in area_list])`), otherwise
the cell keeps its NaN initialisation. -/
def nnCell (tri : Triangulation) (info : List TriInfo) (neighbors : List Nat)
    (xp yp vals : List ℚ) (grid : Pt) : Except Err (Option ℚ) := do
  let s ← nnWalk tri info neighbors xp yp vals grid
  if s.total_area > 0 then
    .ok (some (s.area_list.map (fun x => x / s.total_area)).sum)
  else
    .ok none

/-- The `if len(neighbors) > 0` dispatch of `natural_neighbor`
(line 51): a grid point with an empty neighbour set is skipped and its
cell keeps the NaN initialisation. -/
def nnProcessCell (tri : Triangulation) (info : List TriInfo)
    (xp yp vals : List ℚ) (grid : Pt) (neighbors : List Nat) :
    Except Err (Option ℚ) :=
  if neighbors.length > 0 then nnCell tri info neighbors xp yp vals grid
  else .ok none

/-- Embeds `interpolation.natural_neighbor`.  scipy's `Delaunay` is
external, so its output is supplied as the `simplices` and
`find_simplex` arguments while `tri.points` is the zipped input
coordinate list (scipy keeps `Delaunay(pts).points` equal to the input).
Modelled from the spec (§4.2): triangulating fewer than 3 points is
invalid input that "fails with a configuration error before any grid
work starts"; the guard below reproduces that external failure.  The
final reshape (line 105) IS assigned in this function, so the result
carries the grid shape. -/
def natural_neighbor (xp yp vals : List ℚ) (grid_x grid_y : NDArray ℚ)
    (simplices : List (Nat × Nat × Nat)) (find_simplex : Pt → Int) :
    Except Err (NDArray (Option ℚ)) := do
  if (xp.zip yp).length < 3 then
    .error .qhull
  else
    let tri : Triangulation := ⟨xp.zip yp, simplices, find_simplex⟩
    let grid_points := generate_grid_coords grid_x grid_y
    let mi ← find_natural_neighbors tri grid_points
    let cells ← mapExcept
      (fun gn => nnProcessCell tri mi.2 xp yp vals gn.1 gn.2)
      (grid_points.zip mi.1)
    let img : NDArray (Option ℚ) := ⟨[grid_points.length], cells⟩
    .ok (img.reshape grid_x.shape)

/-! ### General helper lemmas about the embedding -/

theorem getD_map_of_lt {α β : Type} (f : α → β) (l : List α) (i : Nat)
    (h : i < l.length) (da : α) (db : β) :
    (l.map f).getD i db = f (l.getD i da) := by
  induction l generalizing i with
  | nil => simp at h
  | cons x xs ih =>
      cases i with
      | zero => simp [List.getD]
      | succ n =>
          simp only [List.length_cons, Nat.succ_lt_succ_iff] at h
          simpa [List.getD] using ih n h

theorem getD_zip_of_lt {α β : Type} (as : List α) (bs : List β) (i : Nat)
    (ha : i < as.length) (hb : i < bs.length) (da : α) (db : β) :
    (as.zip bs).getD i (da, db) = (as.getD i da, bs.getD i db) := by
  induction as generalizing bs i with
  | nil => simp at ha
  | cons x xs ih =>
      cases bs with
      | nil => simp at hb
      | cons y ys =>
          cases i with
          | zero => simp [List.getD]
          | succ n =>
              simp only [List.length_cons, Nat.succ_lt_succ_iff] at ha hb
              simpa [List.getD, List.zip_cons_cons] using ih ys n ha hb

theorem mapExcept_length {ε α β : Type} (f : α → Except ε β) (l : List α)
    (res : List β) (h : mapExcept f l = .ok res) : res.length = l.length := by
  induction l generalizing res with
  | nil => simp [mapExcept] at h; simp [← h]
  | cons x xs ih =>
      simp only [mapExcept] at h
      cases hfx : f x with
      | error e => simp [bind, Except.bind, hfx] at h
      | ok y =>
          cases hxs : mapExcept f xs with
          | error e => simp [bind, Except.bind, hfx, hxs] at h
          | ok ys =>
              simp only [hfx, hxs, bind, Except.bind] at h
              cases h
              simp [ih ys hxs]

theorem mapExcept_getD {ε α β : Type} (f : α → Except ε β) (l : List α)
    (res : List β) (h : mapExcept f l = .ok res) (i : Nat) (hi : i < l.length)
    (da : α) (db : β) : f (l.getD i da) = .ok (res.getD i db) := by
  induction l generalizing res i with
  | nil => simp at hi
  | cons x xs ih =>
      simp only [mapExcept] at h
      cases hfx : f x with
      | error e => simp [bind, Except.bind, hfx] at h
      | ok y =>
          cases hxs : mapExcept f xs with
          | error e => simp [bind, Except.bind, hfx, hxs] at h
          | ok ys =>
              simp only [hfx, hxs, bind, Except.bind] at h
              cases h
              cases i with
              | zero => simpa [List.getD] using hfx
              | succ n =>
                  simp only [List.length_cons, Nat.succ_lt_succ_iff] at hi
                  simpa [List.getD] using ih ys hxs n hi

theorem mapExcept_of_forall_ok {ε α β : Type} (f : α → Except ε β) (g : α → β)
    (l : List α) (h : ∀ x ∈ l, f x = .ok (g x)) :
    mapExcept f l = .ok (l.map g) := by
  induction l with
  | nil => simp [mapExcept]
  | cons x xs ih =>
      have hx := h x (by simp)
      have hxs := ih (fun y hy => h y (by simp [hy]))
      simp [mapExcept, hx, hxs, bind, Except.bind]

theorem reshape_data {α : Type} (a : NDArray α) (s : List Nat) :
    (a.reshape s).data = a.data := by
  unfold NDArray.reshape
  split <;> rfl

theorem sum_map_div (l : List ℚ) (c : ℚ) :
    (l.map (fun x => x / c)).sum = l.sum / c := by
  induction l with
  | nil => simp
  | cons x xs ih => simp [ih, add_div]

theorem sum_map_mul_div {α : Type} (l : List α) (f g : α → ℚ) (c : ℚ) :
    (l.map (fun x => f x * (g x / c))).sum = (l.map (fun x => g x * f x)).sum / c := by
  induction l with
  | nil => simp
  | cons x xs ih =>
      simp only [List.map_cons, List.sum_cons, ih, add_div]
      ring_nf

theorem lookup_value_mem (p : Pt) (xp yp vals : List ℚ) (v : ℚ)
    (h : lookup_value p xp yp vals = .ok v) : v ∈ vals := by
  unfold lookup_value at h
  cases hf : ((xp.zip yp).zip vals).find? (fun cv => cv.1.1 == p.1 && cv.1.2 == p.2) with
  | none => rw [hf] at h; cases h
  | some cv =>
      rw [hf] at h
      cases h
      exact (List.of_mem_zip (List.mem_of_find?_eq_some hf)).2

theorem polygon_area_nonneg (l : List Pt) : 0 ≤ polygon_area l := by
  unfold polygon_area
  positivity

theorem circumcenter_error_of_deg (p0 p1 p2 : Pt) (h : d_div p0 p1 p2 = 0) :
    circumcenter p0 p1 p2 = .error .zeroDivision := by
  unfold d_div at h
  simp [circumcenter, h]

theorem circumcenter_ok_of_nondeg (p0 p1 p2 : Pt) (h : d_div p0 p1 p2 ≠ 0) :
    ∃ c, circumcenter p0 p1 p2 = .ok c := by
  unfold d_div at h
  simp [circumcenter, h]

/-! ### Claim theorems -/

/-- C1: the spec asserts both interpolators return a grid-shaped array.
`natural_neighbor` does (line 105 assigns the reshape), but
`inverse_distance`'s final `img.reshape(grid_x.shape)` (line 240) is an
unassigned expression statement, so the function returns the flat
`(M,)` array: on a 2×2 grid the returned shape is `[4]`, not the
`[2, 2]` of `grid_x`, contradicting the function's own docstring
("Interpolated values on a 2-dimensional grid"). -/
theorem c1_inverse_distance_returns_flat_array :
    Except.map (fun a => NDArray.shape a)
      (inverse_distance (fun _ => 1) [0, 1, 0] [0, 0, 1] [5, 6, 7]
        ⟨[2, 2], [0, 1, 0, 1]⟩ ⟨[2, 2], [0, 0, 1, 1]⟩ 10 none none 3 "cressman") =
      .ok [4] ∧
    (⟨[2, 2], [0, 1, 0, 1]⟩ : NDArray ℚ).shape = [2, 2] ∧
    Except.map (fun a => NDArray.shape a)
      (natural_neighbor [0, 2, 0, 2] [0, 0, 2, 2] [0, 1, 2, 3]
        ⟨[2, 2], [1, 1, 1, 1]⟩ ⟨[2, 2], [1, 1, 1, 1]⟩
        [(0, 1, 2), (1, 3, 2)] (fun _ => 0)) = .ok [2, 2] := by
  refine ⟨by with_unfolding_all decide, rfl, by with_unfolding_all decide⟩

/-- C2 counterexample: with `r = -1 ≤ 0` (and `kind = "cressman"`)
`inverse_distance` does not fail at all — no configuration error is
raised; the call completes and every cell is NaN. -/
theorem c2_counterexample_r_nonpositive_no_failure :
    inverse_distance (fun _ => 1) [0, 1, 0] [0, 0, 1] [5, 6, 7]
      ⟨[2, 2], [0, 1, 0, 1]⟩ ⟨[2, 2], [0, 0, 1, 1]⟩ (-1) none none 3 "cressman" =
      .ok ⟨[4], [none, none, none, none]⟩ := by
  with_unfolding_all decide

/-- C7 counterexample: a degenerate triangle IS surfaced to the caller.
The pre-loop circumcenter `c1 = circumcenter(grid, p1, p2)`
(`natural_neighbor` line 65) sits outside the `try`, so a grid point
collinear with the first two boundary vertices — here `(1, 0)` with
vertices `(0, 0)` and `(2, 0)` — raises `ZeroDivisionError` out of the
whole call, aborting every remaining grid cell. -/
theorem c7_counterexample_degenerate_aborts_call :
    natural_neighbor [0, 2, 0] [0, 0, 2] [1, 2, 3]
      ⟨[1, 1], [1]⟩ ⟨[1, 1], [0]⟩ [(0, 1, 2)] (fun _ => 0) =
      .error .zeroDivision := by
  with_unfolding_all decide

/-- C10: when the circumcenter of `(grid, p3, p2)` at walk position `i`
is degenerate (zero determinant), the `except ZeroDivisionError` handler
appends a zero to `area_list` and `continue`s: the resulting state keeps
`polygon`, `total_area`, `p1` and `p2` exactly as they were, so
iteration `i + 1` builds its sub-polygon from the same shared vertex
`p2`, the next candidate vertex, and the circumcenters already
accumulated in `polygon` before the failure. -/
theorem c10_degenerate_step_keeps_walk_state (tri : Triangulation)
    (info : List TriInfo) (neighbors : List Nat) (ev : List Nat)
    (xp yp vals : List ℚ) (grid : Pt) (s : WalkState) (i : Nat)
    (hdeg : d_div grid (tri.points.getD (ev.getD ((i + 2) % ev.length) 0) (0, 0))
      (tri.points.getD s.p2 (0, 0)) = 0) :
    nnStep tri info neighbors ev xp yp vals grid s i =
      .ok { polygon := s.polygon, area_list := s.area_list ++ [0],
            total_area := s.total_area, p1 := s.p1, p2 := s.p2 } := by
  simp only [nnStep, circumcenter_error_of_deg _ _ _ hdeg]

/-- C10 witness: a concrete degenerate step — grid point `(0, 0)`
collinear with `p3 = (1, 1)` and `p2 = (2, 2)` — evaluated through the
theorem. -/
theorem c10_degenerate_step_keeps_walk_state_witness :
    nnStep ⟨[(1, 1), (2, 2)], [], fun _ => 0⟩ [] [] [0, 1] [] [] [] (0, 0)
      ⟨[(5, 5)], [3], 7, 0, 1⟩ 0 =
      .ok ⟨[(5, 5)], [3, 0], 7, 0, 1⟩ :=
  c10_degenerate_step_keeps_walk_state ⟨[(1, 1), (2, 2)], [], fun _ => 0⟩
    [] [] [0, 1] [] [] [] (0, 0) ⟨[(5, 5)], [3], 7, 0, 1⟩ 0
    (by with_unfolding_all decide)

/-- C7 amended: a degenerate triangle is signalled by raising the
generic `ZeroDivisionError` (not a tagged result).  The per-iteration
circumcenter inside the `try` is caught and contributes zero area while
the walk continues (first conjunct), but the pre-loop circumcenter
`c1` (line 65) is outside the `try`, so a degenerate
`(grid, p1, p2)` triple propagates the exception to the caller and
aborts the remaining grid (second conjunct; see the counterexample for
a full-call abort). -/
theorem c7_degenerate_caught_inside_try_only :
    (∀ (tri : Triangulation) (info : List TriInfo) (neighbors ev : List Nat)
      (xp yp vals : List ℚ) (grid : Pt) (s : WalkState) (i : Nat),
      d_div grid (tri.points.getD (ev.getD ((i + 2) % ev.length) 0) (0, 0))
          (tri.points.getD s.p2 (0, 0)) = 0 →
      nnStep tri info neighbors ev xp yp vals grid s i =
        .ok { s with area_list := s.area_list ++ [0] }) ∧
    (∀ (tri : Triangulation) (info : List TriInfo) (neighbors : List Nat)
      (xp yp vals : List ℚ) (grid : Pt) (p1 p2 : Nat) (rest : List Nat),
      (order_edges (find_local_boundary tri.simplices neighbors)).map
          (fun seg => seg.1) = p1 :: p2 :: rest →
      d_div grid (tri.points.getD p1 (0, 0)) (tri.points.getD p2 (0, 0)) = 0 →
      nnWalk tri info neighbors xp yp vals grid = .error .zeroDivision) := by
  constructor
  · intro tri info neighbors ev xp yp vals grid s i hdeg
    simp only [nnStep, circumcenter_error_of_deg _ _ _ hdeg]
  · intro tri info neighbors xp yp vals grid p1 p2 rest hev hdeg
    simp only [nnWalk, hev, circumcenter_error_of_deg _ _ _ hdeg, bind, Except.bind]

/-- C7 witness: both conjuncts applied at concrete degenerate inputs:
the in-loop catch at the C10 configuration, and the pre-loop abort at
the triangle `(0,0), (2,0), (0,2)` with grid point `(1, 0)`. -/
theorem c7_degenerate_caught_inside_try_only_witness :
    nnStep ⟨[(1, 1), (2, 2)], [], fun _ => 0⟩ [] [] [0, 1] [] [] [] (0, 0)
      ⟨[(9, 9)], [4], 6, 0, 1⟩ 0 =
      .ok ⟨[(9, 9)], [4, 0], 6, 0, 1⟩ ∧
    nnWalk ⟨[(0, 0), (2, 0), (0, 2)], [(0, 1, 2)], fun _ => 0⟩
      [⟨(1, 1), 2⟩] [0] [0, 2, 0] [0, 0, 2] [1, 2, 3] (1, 0) =
      .error .zeroDivision :=
  ⟨c7_degenerate_caught_inside_try_only.1 ⟨[(1, 1), (2, 2)], [], fun _ => 0⟩
      [] [] [0, 1] [] [] [] (0, 0) ⟨[(9, 9)], [4], 6, 0, 1⟩ 0
      (by with_unfolding_all decide),
    c7_degenerate_caught_inside_try_only.2 ⟨[(0, 0), (2, 0), (0, 2)], [(0, 1, 2)], fun _ => 0⟩
      [⟨(1, 1), 2⟩] [0] [0, 2, 0] [0, 0, 2] [1, 2, 3] (1, 0) 0 1 [2]
      (by with_unfolding_all decide) (by with_unfolding_all decide)⟩

theorem query_ball_point_neg (obs : List Pt) (g : Pt) (r : ℚ) (hr : r < 0) :
    query_ball_point obs g r = [] := by
  unfold query_ball_point
  refine List.filter_eq_nil_iff.2 (fun j _ => ?_)
  simp only [decide_eq_true_eq, not_and]
  intro h0
  exact absurd h0 (not_le.2 hr)

theorem inverse_distance_all_below_threshold (expF : ℚ → ℚ) (xp yp vals : List ℚ)
    (grid_x grid_y : NDArray ℚ) (r : ℚ) (gamma kappa : Option ℚ)
    (mn : Nat) (kind : String)
    (h : ∀ i < (generate_grid_coords grid_x grid_y).length,
      (query_ball_point (xp.zip yp)
        ((generate_grid_coords grid_x grid_y).getD i (0, 0)) r).length < mn) :
    ∃ img, inverse_distance expF xp yp vals grid_x grid_y r gamma kappa mn kind = .ok img ∧
      img.shape = [(generate_grid_coords grid_x grid_y).length] ∧
      img.data.length = (generate_grid_coords grid_x grid_y).length ∧
      ∀ c ∈ img.data, c = none := by
  have hall : ∀ x ∈ (generate_grid_coords grid_x grid_y).zip
      ((generate_grid_coords grid_x grid_y).map
        (fun g => query_ball_point (xp.zip yp) g r)),
      idCell expF (xp.zip yp) vals r gamma kappa mn kind x.1 x.2 =
        .ok ((fun _ => (none : Option ℚ)) x) := by
    intro x hx
    rcases List.mem_iff_getElem.1 hx with ⟨i, hi, hxeq⟩
    rw [List.getElem_zip] at hxeq
    have hig : i < (generate_grid_coords grid_x grid_y).length := by
      simpa using (List.lt_length_left_of_zip hi)
    have hx2 : x.2 = query_ball_point (xp.zip yp)
        ((generate_grid_coords grid_x grid_y).getD i (0, 0)) r := by
      rw [List.getD_eq_getElem _ _ hig, ← hxeq]
      simp
    have hlt := h i hig
    rw [← hx2] at hlt
    unfold idCell
    rw [if_neg (by omega)]
  have hmap := mapExcept_of_forall_ok _ _ _ hall
  refine ⟨⟨[(generate_grid_coords grid_x grid_y).length],
      ((generate_grid_coords grid_x grid_y).zip ((generate_grid_coords grid_x grid_y).map
        (fun g => query_ball_point (xp.zip yp) g r))).map (fun _ => none)⟩, ?_, rfl, ?_, ?_⟩
  · unfold inverse_distance
    simp only [bind, Except.bind, hmap]
  · simp [List.length_zip]
  · intro c hc
    rcases List.mem_map.1 hc with ⟨_, _, hceq⟩
    exact hceq.symm

/-- C2 amended: only one of the three invalid configurations fails fast.
(1) Triangulating fewer than 3 points fails before any grid work
(modelled from the spec's Delaunay interface, §4.2).  (2) `barnes`
without `kappa` is not checked up front: when no grid cell reaches
`min_neighbors` candidates the call succeeds with every cell NaN, and
when a cell does qualify the `TypeError` from `kappa * gamma` is raised
from inside the grid loop (closed instance in the last conjunct), not
by a prior configuration check.  (3) `r ≤ 0` is never rejected: for
`r < 0` (and `min_neighbors ≥ 1`) the call completes normally with
every cell NaN. -/
theorem c2_only_small_input_fails_fast :
    (∀ (xp yp vals : List ℚ) (grid_x grid_y : NDArray ℚ)
      (simplices : List (Nat × Nat × Nat)) (fs : Pt → Int),
      (xp.zip yp).length < 3 →
      natural_neighbor xp yp vals grid_x grid_y simplices fs = .error .qhull) ∧
    (∀ (expF : ℚ → ℚ) (xp yp vals : List ℚ) (grid_x grid_y : NDArray ℚ)
      (r : ℚ) (gamma : Option ℚ) (mn : Nat),
      (∀ i < (generate_grid_coords grid_x grid_y).length,
        (query_ball_point (xp.zip yp)
          ((generate_grid_coords grid_x grid_y).getD i (0, 0)) r).length < mn) →
      ∃ img, inverse_distance expF xp yp vals grid_x grid_y r gamma none mn "barnes" =
          .ok img ∧ ∀ c ∈ img.data, c = none) ∧
    (∀ (expF : ℚ → ℚ) (xp yp vals : List ℚ) (grid_x grid_y : NDArray ℚ)
      (r : ℚ) (gamma kappa : Option ℚ) (mn : Nat) (kind : String),
      r < 0 → 1 ≤ mn →
      ∃ img, inverse_distance expF xp yp vals grid_x grid_y r gamma kappa mn kind =
          .ok img ∧ ∀ c ∈ img.data, c = none) ∧
    inverse_distance (fun _ => 1) [0, 1/2, 1] [0, 0, 0] [5, 6, 7]
      ⟨[1, 1], [1/2]⟩ ⟨[1, 1], [0]⟩ 1 (some 1) none 3 "barnes" =
      .error .typeError := by
  refine ⟨?_, ?_, ?_, by with_unfolding_all decide⟩
  · intro xp yp vals grid_x grid_y simplices fs hlt
    simp only [natural_neighbor, if_pos hlt]
  · intro expF xp yp vals grid_x grid_y r gamma mn h
    rcases inverse_distance_all_below_threshold expF xp yp vals grid_x grid_y r
      gamma none mn "barnes" h with ⟨img, hok, _, _, hnone⟩
    exact ⟨img, hok, hnone⟩
  · intro expF xp yp vals grid_x grid_y r gamma kappa mn kind hr hmn
    have h : ∀ i < (generate_grid_coords grid_x grid_y).length,
        (query_ball_point (xp.zip yp)
          ((generate_grid_coords grid_x grid_y).getD i (0, 0)) r).length < mn := by
      intro i hi
      rw [query_ball_point_neg _ _ _ hr]
      simpa using hmn
    rcases inverse_distance_all_below_threshold expF xp yp vals grid_x grid_y r
      gamma kappa mn kind h with ⟨img, hok, _, _, hnone⟩
    exact ⟨img, hok, hnone⟩

/-- C2 witness: the three general conjuncts applied at concrete inputs:
a 2-point triangulation failing fast, a barnes call without `kappa`
whose single grid cell has no candidates succeeding with a NaN cell,
and an `r = -1` cressman call succeeding with a NaN cell. -/
theorem c2_only_small_input_fails_fast_witness :
    natural_neighbor [0, 1] [0, 0] [5, 6] ⟨[1, 1], [0]⟩ ⟨[1, 1], [0]⟩ []
      (fun _ => 0) = .error .qhull ∧
    (∃ img, inverse_distance (fun _ => 1) [50] [50] [5] ⟨[1, 1], [0]⟩ ⟨[1, 1], [0]⟩
      1 none none 3 "barnes" = .ok img ∧ ∀ c ∈ img.data, c = none) ∧
    (∃ img, inverse_distance (fun _ => 1) [0] [0] [5] ⟨[1, 1], [0]⟩ ⟨[1, 1], [0]⟩
      (-1) none none 3 "cressman" = .ok img ∧ ∀ c ∈ img.data, c = none) :=
  ⟨c2_only_small_input_fails_fast.1 [0, 1] [0, 0] [5, 6] ⟨[1, 1], [0]⟩
      ⟨[1, 1], [0]⟩ [] (fun _ => 0) (by with_unfolding_all decide),
    c2_only_small_input_fails_fast.2.1 (fun _ => 1) [50] [50] [5] ⟨[1, 1], [0]⟩
      ⟨[1, 1], [0]⟩ 1 none 3 (by with_unfolding_all decide),
    c2_only_small_input_fails_fast.2.2.1 (fun _ => 1) [0] [0] [5] ⟨[1, 1], [0]⟩
      ⟨[1, 1], [0]⟩ (-1) none none 3 "cressman" (by with_unfolding_all decide)
      (by omega)⟩

/-- C5: for `kind = "cressman"`, a grid cell `idx` with at least
`min_neighbors` candidates gets the weight-normalised value
`Σ(w_i·v_i) / Σw_i`, where the weight of the candidate at squared
distance `d²` is `cressman_weights d² r = (r² - d²)/(r² + d²)` — in
particular `1` at distance `0` (for `r ≠ 0`) and `0` at distance `r`. -/
theorem c5_cressman_cell_is_normalised_weighted_sum (expF : ℚ → ℚ)
    (xp yp vals : List ℚ) (grid_x grid_y : NDArray ℚ) (r : ℚ)
    (gamma kappa : Option ℚ) (mn : Nat) (idx : Nat) (img : NDArray (Option ℚ))
    (hok : inverse_distance expF xp yp vals grid_x grid_y r gamma kappa mn "cressman" =
      .ok img)
    (hidx : idx < (generate_grid_coords grid_x grid_y).length)
    (hq : mn ≤ (query_ball_point (xp.zip yp)
      ((generate_grid_coords grid_x grid_y).getD idx (0, 0)) r).length) :
    img.data.getD idx none =
      some ((((query_ball_point (xp.zip yp)
          ((generate_grid_coords grid_x grid_y).getD idx (0, 0)) r).map
            (fun j => (cressman_weights (distSq
              ((generate_grid_coords grid_x grid_y).getD idx (0, 0))
              ((xp.zip yp).getD j (0, 0))) r, vals.getD j 0))).map
          (fun p => p.1 * p.2)).sum /
        ((query_ball_point (xp.zip yp)
          ((generate_grid_coords grid_x grid_y).getD idx (0, 0)) r).map
            (fun j => cressman_weights (distSq
              ((generate_grid_coords grid_x grid_y).getD idx (0, 0))
              ((xp.zip yp).getD j (0, 0))) r)).sum) ∧
    (∀ d : ℚ, cressman_weights (d * d) r = (r * r - d * d) / (r * r + d * d)) ∧
    (r ≠ 0 → cressman_weights 0 r = 1) ∧
    cressman_weights (r * r) r = 0 := by
  refine ⟨?_, fun d => rfl, ?_, ?_⟩
  · unfold inverse_distance at hok
    simp only [bind, Except.bind] at hok
    cases hmf : mapExcept
        (fun gm => idCell expF (xp.zip yp) vals r gamma kappa mn "cressman" gm.1 gm.2)
        ((generate_grid_coords grid_x grid_y).zip
          ((generate_grid_coords grid_x grid_y).map
            (fun g => query_ball_point (xp.zip yp) g r))) with
    | error e => rw [hmf] at hok; cases hok
    | ok cells =>
        rw [hmf] at hok
        cases hok
        have hlen : idx < ((generate_grid_coords grid_x grid_y).zip
            ((generate_grid_coords grid_x grid_y).map
              (fun g => query_ball_point (xp.zip yp) g r))).length := by
          simpa [List.length_zip] using hidx
        have hcell := mapExcept_getD _ _ _ hmf idx hlen ((0, 0), []) none
        rw [getD_zip_of_lt _ _ idx hidx (by simpa using hidx) (0, 0) []] at hcell
        rw [getD_map_of_lt _ _ idx hidx (0, 0) []] at hcell
        unfold idCell at hcell
        rw [if_pos hq] at hcell
        rw [if_pos (rfl : ("cressman" : String) = "cressman")] at hcell
        dsimp only at hcell
        have hval := (Except.ok.inj hcell).symm
        show List.getD _ idx none = _
        rw [hval, sum_map_mul_div]
        simp [Function.comp_def, List.zip_map', List.map_map]
  · intro hr
    unfold cressman_weights
    rw [sub_zero, add_zero, div_self (mul_ne_zero hr hr)]
  · unfold cressman_weights
    rw [sub_self, zero_div]

/-- C5 witness: the spec §8 end-to-end example — observations `0, 1, 2, 3`
at the unit-square corners, one grid point `(1/2, 1/2)`, Cressman with
`r = 2` — evaluated through the theorem; the returned cell is
`some (3/2)`, the symmetric average. -/
theorem c5_cressman_cell_is_normalised_weighted_sum_witness :
    (⟨[1], [some ((3 : ℚ)/2)]⟩ : NDArray (Option ℚ)).data.getD 0 none =
      some ((((query_ball_point ([0, 1, 1, 0].zip [0, 0, 1, 1])
          ((generate_grid_coords ⟨[1, 1], [1/2]⟩ ⟨[1, 1], [1/2]⟩).getD 0 (0, 0)) 2).map
            (fun j => (cressman_weights (distSq
              ((generate_grid_coords ⟨[1, 1], [1/2]⟩ ⟨[1, 1], [1/2]⟩).getD 0 (0, 0))
              (([0, 1, 1, 0].zip [0, 0, 1, 1]).getD j (0, 0))) 2, [0, 1, 2, 3].getD j 0))).map
          (fun p => p.1 * p.2)).sum /
        ((query_ball_point ([0, 1, 1, 0].zip [0, 0, 1, 1])
          ((generate_grid_coords ⟨[1, 1], [1/2]⟩ ⟨[1, 1], [1/2]⟩).getD 0 (0, 0)) 2).map
            (fun j => cressman_weights (distSq
              ((generate_grid_coords ⟨[1, 1], [1/2]⟩ ⟨[1, 1], [1/2]⟩).getD 0 (0, 0))
              (([0, 1, 1, 0].zip [0, 0, 1, 1]).getD j (0, 0))) 2)).sum) :=
  (c5_cressman_cell_is_normalised_weighted_sum (fun _ => 1) [0, 1, 1, 0] [0, 0, 1, 1]
    [0, 1, 2, 3] ⟨[1, 1], [1/2]⟩ ⟨[1, 1], [1/2]⟩ 2 none none 3 0 ⟨[1], [some (3/2)]⟩
    (by with_unfolding_all decide) (by with_unfolding_all decide)
    (by with_unfolding_all decide)).1

/-- C6 counterexample: with the configuration the claim describes —
`kind = "barnes"`, `kappa` supplied, `gamma` left at its default — the
source's default for `inverse_distance`'s `gamma` is `None` (not the
claimed `1.0`), and the pass-2 call `barnes_weights(dist, kappa, gamma)`
computes `kappa * None`, raising `TypeError` at the first qualifying
cell instead of producing the two-pass value. -/
theorem c6_counterexample_default_gamma_raises :
    inverse_distance (fun _ => 1) [0, 1/2, 1] [0, 0, 0] [5, 6, 7]
      ⟨[1, 1], [1/2]⟩ ⟨[1, 1], [0]⟩ 1 none (some 2) 3 "barnes" =
      .error .typeError := by
  with_unfolding_all decide

/-- C6 amended: the source's default for `gamma` is `None`, which makes
the claimed configuration raise `TypeError` (see the counterexample);
with `gamma` supplied explicitly (together with `kappa`), every
qualifying cell gets the two-pass Barnes value
`g1 = g0 + Σ(w2_j·(v_j − g0)) / Σw2_j` with
`g0 = Σ(w1_j·v_j) / Σw1_j`, pass-1 weights
`w1_j = exp(−d_j² / (κ·1.0))` and pass-2 weights
`w2_j = exp(−d_j² / (κ·γ))`, `d_j²` the candidate's squared distance
from the grid point. -/
theorem c6_barnes_two_pass_with_explicit_gamma (expF : ℚ → ℚ)
    (xp yp vals : List ℚ) (grid_x grid_y : NDArray ℚ) (r : ℚ) (k gm : ℚ)
    (mn : Nat) (idx : Nat) (img : NDArray (Option ℚ))
    (hok : inverse_distance expF xp yp vals grid_x grid_y r (some gm) (some k)
      mn "barnes" = .ok img)
    (hidx : idx < (generate_grid_coords grid_x grid_y).length)
    (hq : mn ≤ (query_ball_point (xp.zip yp)
      ((generate_grid_coords grid_x grid_y).getD idx (0, 0)) r).length) :
    ∃ (w1s w2s vs : List ℚ) (g0 : ℚ),
      w1s = (query_ball_point (xp.zip yp)
          ((generate_grid_coords grid_x grid_y).getD idx (0, 0)) r).map
        (fun j => expF (-(distSq ((generate_grid_coords grid_x grid_y).getD idx (0, 0))
          ((xp.zip yp).getD j (0, 0))) / (k * 1))) ∧
      w2s = (query_ball_point (xp.zip yp)
          ((generate_grid_coords grid_x grid_y).getD idx (0, 0)) r).map
        (fun j => expF (-(distSq ((generate_grid_coords grid_x grid_y).getD idx (0, 0))
          ((xp.zip yp).getD j (0, 0))) / (k * gm))) ∧
      vs = (query_ball_point (xp.zip yp)
          ((generate_grid_coords grid_x grid_y).getD idx (0, 0)) r).map
        (fun j => vals.getD j 0) ∧
      g0 = ((vs.zip w1s).map (fun p => p.2 * p.1)).sum / w1s.sum ∧
      img.data.getD idx none =
        some (g0 + ((vs.zip w2s).map (fun p => p.2 * (p.1 - g0))).sum / w2s.sum) := by
  unfold inverse_distance at hok
  simp only [bind, Except.bind] at hok
  cases hmf : mapExcept
      (fun gm2 => idCell expF (xp.zip yp) vals r (some gm) (some k) mn "barnes" gm2.1 gm2.2)
      ((generate_grid_coords grid_x grid_y).zip
        ((generate_grid_coords grid_x grid_y).map
          (fun g => query_ball_point (xp.zip yp) g r))) with
  | error e => rw [hmf] at hok; cases hok
  | ok cells =>
      rw [hmf] at hok
      cases hok
      have hlen : idx < ((generate_grid_coords grid_x grid_y).zip
          ((generate_grid_coords grid_x grid_y).map
            (fun g => query_ball_point (xp.zip yp) g r))).length := by
        simpa [List.length_zip] using hidx
      have hcell := mapExcept_getD _ _ _ hmf idx hlen ((0, 0), []) none
      rw [getD_zip_of_lt _ _ idx hidx (by simpa using hidx) (0, 0) []] at hcell
      rw [getD_map_of_lt _ _ idx hidx (0, 0) []] at hcell
      unfold idCell at hcell
      rw [if_pos hq] at hcell
      rw [if_neg (by decide : ¬ ("barnes" : String) = "cressman")] at hcell
      rw [if_pos (rfl : ("barnes" : String) = "barnes")] at hcell
      dsimp only at hcell
      rw [mapExcept_of_forall_ok (fun d => barnes_weights expF d (some k) (some 1))
        (fun d => expF (-d / (k * 1))) _ (fun x _ => rfl)] at hcell
      rw [mapExcept_of_forall_ok (fun d => barnes_weights expF d (some k) (some gm))
        (fun d => expF (-d / (k * gm))) _ (fun x _ => rfl)] at hcell
      simp only [bind, Except.bind] at hcell
      have hval := (Except.ok.inj hcell).symm
      refine ⟨_, _, _, _, rfl, rfl, rfl, rfl, ?_⟩
      show List.getD _ idx none = _
      rw [hval, sum_map_mul_div, sum_map_mul_div]
      simp [Function.comp_def, List.zip_map', List.map_map]

/-- C6 witness: barnes with `kappa = 2` and `gamma = 1` supplied, three
collinear observations `5, 6, 7` within `r = 1` of the single grid
point `(1/2, 0)`, and the constant kernel `expF = 1` — the two-pass
value is the plain mean `6`, evaluated through the theorem. -/
theorem c6_barnes_two_pass_with_explicit_gamma_witness :
    ∃ (w1s w2s vs : List ℚ) (g0 : ℚ),
      w1s = (query_ball_point ([0, 1/2, 1].zip [0, 0, 0])
          ((generate_grid_coords ⟨[1, 1], [1/2]⟩ ⟨[1, 1], [0]⟩).getD 0 (0, 0)) 1).map
        (fun j => (fun _ => (1 : ℚ))
          (-(distSq ((generate_grid_coords ⟨[1, 1], [1/2]⟩ ⟨[1, 1], [0]⟩).getD 0 (0, 0))
            (([0, 1/2, 1].zip [0, 0, 0]).getD j (0, 0))) / (2 * 1))) ∧
      w2s = (query_ball_point ([0, 1/2, 1].zip [0, 0, 0])
          ((generate_grid_coords ⟨[1, 1], [1/2]⟩ ⟨[1, 1], [0]⟩).getD 0 (0, 0)) 1).map
        (fun j => (fun _ => (1 : ℚ))
          (-(distSq ((generate_grid_coords ⟨[1, 1], [1/2]⟩ ⟨[1, 1], [0]⟩).getD 0 (0, 0))
            (([0, 1/2, 1].zip [0, 0, 0]).getD j (0, 0))) / (2 * 1))) ∧
      vs = (query_ball_point ([0, 1/2, 1].zip [0, 0, 0])
          ((generate_grid_coords ⟨[1, 1], [1/2]⟩ ⟨[1, 1], [0]⟩).getD 0 (0, 0)) 1).map
        (fun j => [5, 6, 7].getD j 0) ∧
      g0 = ((vs.zip w1s).map (fun p => p.2 * p.1)).sum / w1s.sum ∧
      (⟨[1], [some 6]⟩ : NDArray (Option ℚ)).data.getD 0 none =
        some (g0 + ((vs.zip w2s).map (fun p => p.2 * (p.1 - g0))).sum / w2s.sum) :=
  c6_barnes_two_pass_with_explicit_gamma (fun _ => 1) [0, 1/2, 1] [0, 0, 0] [5, 6, 7]
    ⟨[1, 1], [1/2]⟩ ⟨[1, 1], [0]⟩ 1 2 1 3 0 ⟨[1], [some 6]⟩
    (by with_unfolding_all decide) (by with_unfolding_all decide)
    (by with_unfolding_all decide)

theorem appendQualifier_length (tri : Triangulation) (cc : Pt) (r2 : ℚ) (i : Nat) :
    ∀ (gs : List Pt) (ls : List (List Nat)), ls.length = gs.length →
      (appendQualifier tri cc r2 i gs ls).length = gs.length := by
  intro gs
  induction gs with
  | nil => intro ls h; cases ls <;> simp [appendQualifier]
  | cons g gs ih =>
      intro ls h
      cases ls with
      | nil => simp at h
      | cons l ls =>
          simp only [List.length_cons, Nat.succ.injEq] at h
          simp [appendQualifier, ih ls h]

theorem appendQualifier_getD (tri : Triangulation) (cc : Pt) (r2 : ℚ) (i : Nat) :
    ∀ (gs : List Pt) (ls : List (List Nat)), ls.length = gs.length →
      ∀ gi, gi < gs.length →
      (appendQualifier tri cc r2 i gs ls).getD gi [] =
        if tri.find_simplex (gs.getD gi (0, 0)) ≥ 0 ∧
            distSq cc (gs.getD gi (0, 0)) ≤ r2 then
          ls.getD gi [] ++ [i]
        else
          ls.getD gi [] := by
  intro gs
  induction gs with
  | nil => intro ls h gi hgi; simp at hgi
  | cons g gs ih =>
      intro ls h gi hgi
      cases ls with
      | nil => simp at h
      | cons l ls =>
          simp only [List.length_cons, Nat.succ.injEq] at h
          cases gi with
          | zero => simp [appendQualifier, List.getD]
          | succ n =>
              simp only [List.length_cons, Nat.succ_lt_succ_iff] at hgi
              simpa [appendQualifier, List.getD] using ih ls h n hgi

theorem fnn_loop_spec (tri : Triangulation) (grid : List Pt) :
    ∀ (L : List Nat) (ms : List (List Nat)) (info : List TriInfo)
      (out : List (List Nat) × List TriInfo),
      ms.length = grid.length →
      foldlExcept (fnnStep tri grid) (ms, info) L = .ok out →
      out.1.length = grid.length ∧
      ∀ gi, gi < grid.length → ∀ j,
        (j ∈ out.1.getD gi [] ↔
          (j ∈ ms.getD gi [] ∨ (j ∈ L ∧ tri.find_simplex (grid.getD gi (0, 0)) ≥ 0 ∧
            ∃ c, circumcenter
                (tri.points.getD (tri.simplices.getD j (0, 0, 0)).1 (0, 0))
                (tri.points.getD (tri.simplices.getD j (0, 0, 0)).2.1 (0, 0))
                (tri.points.getD (tri.simplices.getD j (0, 0, 0)).2.2 (0, 0)) = .ok c ∧
              distSq c (grid.getD gi (0, 0)) ≤ circumradius_sq
                (tri.points.getD (tri.simplices.getD j (0, 0, 0)).1 (0, 0))
                (tri.points.getD (tri.simplices.getD j (0, 0, 0)).2.1 (0, 0))
                (tri.points.getD (tri.simplices.getD j (0, 0, 0)).2.2 (0, 0))))) := by
  intro L
  induction L with
  | nil =>
      intro ms info out hlen hfold
      simp only [foldlExcept] at hfold
      cases hfold
      exact ⟨hlen, fun gi hgi j => by simp⟩
  | cons j L ih =>
      intro ms info out hlen hfold
      simp only [foldlExcept, fnnStep, bind, Except.bind] at hfold
      cases hcc : circumcenter
          (tri.points.getD (tri.simplices.getD j (0, 0, 0)).1 (0, 0))
          (tri.points.getD (tri.simplices.getD j (0, 0, 0)).2.1 (0, 0))
          (tri.points.getD (tri.simplices.getD j (0, 0, 0)).2.2 (0, 0)) with
      | error e => rw [hcc] at hfold; cases hfold
      | ok c =>
          rw [hcc] at hfold
          have hlen' : (appendQualifier tri c
              (circumradius_sq
                (tri.points.getD (tri.simplices.getD j (0, 0, 0)).1 (0, 0))
                (tri.points.getD (tri.simplices.getD j (0, 0, 0)).2.1 (0, 0))
                (tri.points.getD (tri.simplices.getD j (0, 0, 0)).2.2 (0, 0)))
              j grid ms).length = grid.length :=
            appendQualifier_length _ _ _ _ grid ms hlen
          obtain ⟨hl, hmem⟩ := ih _ _ out hlen' hfold
          refine ⟨hl, fun gi hgi j' => ?_⟩
          rw [hmem gi hgi j']
          rw [appendQualifier_getD _ _ _ _ grid ms hlen gi hgi]
          by_cases hcond : tri.find_simplex (grid.getD gi (0, 0)) ≥ 0 ∧
              distSq c (grid.getD gi (0, 0)) ≤ circumradius_sq
                (tri.points.getD (tri.simplices.getD j (0, 0, 0)).1 (0, 0))
                (tri.points.getD (tri.simplices.getD j (0, 0, 0)).2.1 (0, 0))
                (tri.points.getD (tri.simplices.getD j (0, 0, 0)).2.2 (0, 0))
          case pos =>
              rw [if_pos hcond]
              simp only [List.mem_append, List.mem_cons, List.not_mem_nil, or_false]
              constructor
              · rintro ((hin | hj) | hL)
                · exact Or.inl hin
                · exact Or.inr ⟨Or.inl hj, hj ▸ ⟨hcond.1, c, hcc, hcond.2⟩⟩
                · exact Or.inr ⟨Or.inr hL.1, hL.2⟩
              · rintro (hin | ⟨(hj | hL), hQ⟩)
                · exact Or.inl (Or.inl hin)
                · exact Or.inl (Or.inr hj)
                · exact Or.inr ⟨hL, hQ⟩
          case neg =>
              rw [if_neg hcond]
              constructor
              · rintro (hin | hL)
                · exact Or.inl hin
                · exact Or.inr ⟨List.mem_cons_of_mem _ hL.1, hL.2⟩
              · rintro (hin | ⟨hjL, hfs, c', hcc', hdist⟩)
                · exact Or.inl hin
                · rcases List.mem_cons.1 hjL with hj | hL
                  · subst hj
                    rw [hcc] at hcc'
                    cases hcc'
                    exact absurd ⟨hfs, hdist⟩ hcond
                  · exact Or.inr ⟨hL, hfs, c', hcc', hdist⟩

/-- C3: whenever `find_natural_neighbors` returns, simplex `j` is
recorded in grid point `gi`'s member list exactly when `j` is a simplex
index, the point-location query is nonnegative (`gi` inside the convex
hull), and `gi` lies within `j`'s circumradius of `j`'s circumcenter
(squared comparison, the exact-arithmetic form of the KD-tree ball
query); and in `natural_neighbor` a grid point with an empty neighbour
set is skipped, leaving its cell NaN. -/
theorem c3_member_iff_in_circumcircle_and_hull (tri : Triangulation)
    (grid : List Pt) (members : List (List Nat)) (info : List TriInfo)
    (hok : find_natural_neighbors tri grid = .ok (members, info)) :
    members.length = grid.length ∧
    (∀ gi, gi < grid.length → ∀ j,
      (j ∈ members.getD gi [] ↔
        (j < tri.simplices.length ∧
          tri.find_simplex (grid.getD gi (0, 0)) ≥ 0 ∧
          ∃ c, circumcenter
              (tri.points.getD (tri.simplices.getD j (0, 0, 0)).1 (0, 0))
              (tri.points.getD (tri.simplices.getD j (0, 0, 0)).2.1 (0, 0))
              (tri.points.getD (tri.simplices.getD j (0, 0, 0)).2.2 (0, 0)) = .ok c ∧
            distSq c (grid.getD gi (0, 0)) ≤ circumradius_sq
              (tri.points.getD (tri.simplices.getD j (0, 0, 0)).1 (0, 0))
              (tri.points.getD (tri.simplices.getD j (0, 0, 0)).2.1 (0, 0))
              (tri.points.getD (tri.simplices.getD j (0, 0, 0)).2.2 (0, 0))))) ∧
    (∀ (info2 : List TriInfo) (xp yp vals : List ℚ) (g : Pt),
      nnProcessCell tri info2 xp yp vals g [] = .ok none) := by
  unfold find_natural_neighbors at hok
  obtain ⟨hl, hmem⟩ := fnn_loop_spec tri grid (List.range tri.simplices.length)
    (grid.map fun _ => []) [] (members, info) (by simp) hok
  refine ⟨hl, fun gi hgi j => ?_, fun info2 xp yp vals g => rfl⟩
  rw [hmem gi hgi j]
  rw [getD_map_of_lt (fun _ => ([] : List Nat)) grid gi hgi (0, 0) []]
  simp only [List.not_mem_nil, false_or, List.mem_range]

/-- C3 witness: the square of four observations with its two Delaunay
triangles, one grid point `(1, 1)` inside both circumcircles and one
far point `(10, 10)` outside both; membership evaluated through the
theorem. -/
theorem c3_member_iff_in_circumcircle_and_hull_witness :
    ([[0, 1], []] : List (List Nat)).length = ([(1, 1), (10, 10)] : List Pt).length ∧
    (∀ gi, gi < ([(1, 1), (10, 10)] : List Pt).length → ∀ j,
      (j ∈ ([[0, 1], []] : List (List Nat)).getD gi [] ↔
        (j < (Triangulation.mk [(0, 0), (2, 0), (0, 2), (2, 2)]
            [(0, 1, 2), (1, 3, 2)] (fun _ => 0)).simplices.length ∧
          (Triangulation.mk [(0, 0), (2, 0), (0, 2), (2, 2)]
            [(0, 1, 2), (1, 3, 2)] (fun _ => 0)).find_simplex
              (([(1, 1), (10, 10)] : List Pt).getD gi (0, 0)) ≥ 0 ∧
          ∃ c, circumcenter
              ((Triangulation.mk [(0, 0), (2, 0), (0, 2), (2, 2)]
                [(0, 1, 2), (1, 3, 2)] (fun _ => 0)).points.getD
                (((Triangulation.mk [(0, 0), (2, 0), (0, 2), (2, 2)]
                  [(0, 1, 2), (1, 3, 2)] (fun _ => 0)).simplices.getD j (0, 0, 0)).1) (0, 0))
              ((Triangulation.mk [(0, 0), (2, 0), (0, 2), (2, 2)]
                [(0, 1, 2), (1, 3, 2)] (fun _ => 0)).points.getD
                (((Triangulation.mk [(0, 0), (2, 0), (0, 2), (2, 2)]
                  [(0, 1, 2), (1, 3, 2)] (fun _ => 0)).simplices.getD j (0, 0, 0)).2.1) (0, 0))
              ((Triangulation.mk [(0, 0), (2, 0), (0, 2), (2, 2)]
                [(0, 1, 2), (1, 3, 2)] (fun _ => 0)).points.getD
                (((Triangulation.mk [(0, 0), (2, 0), (0, 2), (2, 2)]
                  [(0, 1, 2), (1, 3, 2)] (fun _ => 0)).simplices.getD j (0, 0, 0)).2.2) (0, 0)) = .ok c ∧
            distSq c (([(1, 1), (10, 10)] : List Pt).getD gi (0, 0)) ≤ circumradius_sq
              ((Triangulation.mk [(0, 0), (2, 0), (0, 2), (2, 2)]
                [(0, 1, 2), (1, 3, 2)] (fun _ => 0)).points.getD
                (((Triangulation.mk [(0, 0), (2, 0), (0, 2), (2, 2)]
                  [(0, 1, 2), (1, 3, 2)] (fun _ => 0)).simplices.getD j (0, 0, 0)).1) (0, 0))
              ((Triangulation.mk [(0, 0), (2, 0), (0, 2), (2, 2)]
                [(0, 1, 2), (1, 3, 2)] (fun _ => 0)).points.getD
                (((Triangulation.mk [(0, 0), (2, 0), (0, 2), (2, 2)]
                  [(0, 1, 2), (1, 3, 2)] (fun _ => 0)).simplices.getD j (0, 0, 0)).2.1) (0, 0))
              ((Triangulation.mk [(0, 0), (2, 0), (0, 2), (2, 2)]
                [(0, 1, 2), (1, 3, 2)] (fun _ => 0)).points.getD
                (((Triangulation.mk [(0, 0), (2, 0), (0, 2), (2, 2)]
                  [(0, 1, 2), (1, 3, 2)] (fun _ => 0)).simplices.getD j (0, 0, 0)).2.2) (0, 0))))) ∧
    (∀ (info2 : List TriInfo) (xp yp vals : List ℚ) (g : Pt),
      nnProcessCell (Triangulation.mk [(0, 0), (2, 0), (0, 2), (2, 2)]
        [(0, 1, 2), (1, 3, 2)] (fun _ => 0)) info2 xp yp vals g [] = .ok none) :=
  c3_member_iff_in_circumcircle_and_hull
    ⟨[(0, 0), (2, 0), (0, 2), (2, 2)], [(0, 1, 2), (1, 3, 2)], fun _ => 0⟩
    [(1, 1), (10, 10)] [[0, 1], []]
    [⟨(1, 1), 2⟩, ⟨(1, 1), 2⟩] (by with_unfolding_all decide)

/-- C9: a grid cell with fewer than `min_neighbors` candidates within
`r` (inverse_distance) keeps its NaN initialisation, and its per-cell
processing raises nothing (it returns before any weight computation);
likewise a grid point outside the convex hull (`find_simplex < 0`,
natural_neighbor) has an empty neighbour set, keeps NaN, and its
per-cell dispatch raises nothing. -/
theorem c9_sparse_or_outside_cells_are_nan_and_harmless :
    (∀ (expF : ℚ → ℚ) (xp yp vals : List ℚ) (grid_x grid_y : NDArray ℚ)
      (r : ℚ) (gamma kappa : Option ℚ) (mn : Nat) (kind : String)
      (idx : Nat) (img : NDArray (Option ℚ)),
      inverse_distance expF xp yp vals grid_x grid_y r gamma kappa mn kind = .ok img →
      idx < (generate_grid_coords grid_x grid_y).length →
      (query_ball_point (xp.zip yp)
        ((generate_grid_coords grid_x grid_y).getD idx (0, 0)) r).length < mn →
      img.data.getD idx none = none) ∧
    (∀ (expF : ℚ → ℚ) (obs : List Pt) (vals : List ℚ) (r : ℚ)
      (gamma kappa : Option ℚ) (mn : Nat) (kind : String) (g : Pt) (ms : List Nat),
      ms.length < mn →
      idCell expF obs vals r gamma kappa mn kind g ms = .ok none) ∧
    (∀ (xp yp vals : List ℚ) (grid_x grid_y : NDArray ℚ)
      (simplices : List (Nat × Nat × Nat)) (fs : Pt → Int)
      (idx : Nat) (img : NDArray (Option ℚ)),
      natural_neighbor xp yp vals grid_x grid_y simplices fs = .ok img →
      idx < (generate_grid_coords grid_x grid_y).length →
      fs ((generate_grid_coords grid_x grid_y).getD idx (0, 0)) < 0 →
      img.data.getD idx none = none) ∧
    (∀ (tri : Triangulation) (info : List TriInfo) (xp yp vals : List ℚ) (g : Pt),
      nnProcessCell tri info xp yp vals g [] = .ok none) := by
  refine ⟨?_, ?_, ?_, fun tri info xp yp vals g => rfl⟩
  · intro expF xp yp vals grid_x grid_y r gamma kappa mn kind idx img hok hidx hq
    unfold inverse_distance at hok
    simp only [bind, Except.bind] at hok
    cases hmf : mapExcept
        (fun gm => idCell expF (xp.zip yp) vals r gamma kappa mn kind gm.1 gm.2)
        ((generate_grid_coords grid_x grid_y).zip
          ((generate_grid_coords grid_x grid_y).map
            (fun g => query_ball_point (xp.zip yp) g r))) with
    | error e => rw [hmf] at hok; cases hok
    | ok cells =>
        rw [hmf] at hok
        cases hok
        have hlen : idx < ((generate_grid_coords grid_x grid_y).zip
            ((generate_grid_coords grid_x grid_y).map
              (fun g => query_ball_point (xp.zip yp) g r))).length := by
          simpa [List.length_zip] using hidx
        have hcell := mapExcept_getD _ _ _ hmf idx hlen ((0, 0), []) none
        rw [getD_zip_of_lt _ _ idx hidx (by simpa using hidx) (0, 0) []] at hcell
        rw [getD_map_of_lt _ _ idx hidx (0, 0) []] at hcell
        dsimp only at hcell
        unfold idCell at hcell
        rw [if_neg (by omega)] at hcell
        exact (Except.ok.inj hcell).symm
  · intro expF obs vals r gamma kappa mn kind g ms hlt
    unfold idCell
    rw [if_neg (by omega)]
  · intro xp yp vals grid_x grid_y simplices fs idx img hok hidx hfs
    unfold natural_neighbor at hok
    by_cases hsmall : (xp.zip yp).length < 3
    · rw [if_pos hsmall] at hok; cases hok
    · rw [if_neg hsmall] at hok
      simp only [bind, Except.bind] at hok
      cases hfn : find_natural_neighbors ⟨xp.zip yp, simplices, fs⟩
          (generate_grid_coords grid_x grid_y) with
      | error e => rw [hfn] at hok; cases hok
      | ok mi =>
          rw [hfn] at hok
          obtain ⟨members, info⟩ := mi
          dsimp only at hok
          obtain ⟨hl, hmem⟩ := fnn_loop_spec ⟨xp.zip yp, simplices, fs⟩
            (generate_grid_coords grid_x grid_y) (List.range simplices.length)
            ((generate_grid_coords grid_x grid_y).map fun _ => []) []
            (members, info) (by simp) hfn
          have hinit : ((generate_grid_coords grid_x grid_y).map
              (fun _ => ([] : List Nat))).getD idx [] = [] :=
            getD_map_of_lt (fun _ => ([] : List Nat)) _ idx hidx (0, 0) []
          have hempty : members.getD idx [] = [] := by
            refine List.eq_nil_iff_forall_not_mem.2 (fun j hj => ?_)
            rcases (hmem idx hidx j).1 hj with hin | ⟨_, hge, _⟩
            · rw [hinit] at hin
              exact absurd hin (List.not_mem_nil j)
            · exact absurd hge (not_le.2 hfs)
          cases hmc : mapExcept
              (fun gn => nnProcessCell ⟨xp.zip yp, simplices, fs⟩ info xp yp vals gn.1 gn.2)
              ((generate_grid_coords grid_x grid_y).zip members) with
          | error e => rw [hmc] at hok; cases hok
          | ok cells =>
              rw [hmc] at hok
              cases hok
              have hlen2 : idx < ((generate_grid_coords grid_x grid_y).zip members).length := by
                simp [List.length_zip, hl, hidx]
              have hcell := mapExcept_getD _ _ _ hmc idx hlen2 ((0, 0), []) none
              rw [getD_zip_of_lt _ _ idx hidx (by rw [hl]; exact hidx) (0, 0) []] at hcell
              rw [hempty] at hcell
              rw [reshape_data]
              exact (Except.ok.inj hcell).symm

/-- C9 witness: the four conjuncts at concrete inputs — an
inverse-distance call whose single grid point has no candidate within
`r = 1` (cell NaN), a below-threshold `idCell` returning NaN without
error, a natural-neighbor call whose point-location is everywhere
negative (cell NaN), and the empty-neighbour dispatch. -/
theorem c9_sparse_or_outside_cells_are_nan_and_harmless_witness :
    ((⟨[1], [none]⟩ : NDArray (Option ℚ)).data.getD 0 none = none) ∧
    (idCell (fun _ => 1) [] [] 1 none none 3 "cressman" (0, 0) [] = .ok none) ∧
    ((⟨[1, 1], [none]⟩ : NDArray (Option ℚ)).data.getD 0 none = none) ∧
    nnProcessCell ⟨[], [], fun _ => 0⟩ [] [] [] [] (0, 0) [] = .ok none :=
  ⟨c9_sparse_or_outside_cells_are_nan_and_harmless.1 (fun _ => 1) [50] [50] [5]
      ⟨[1, 1], [0]⟩ ⟨[1, 1], [0]⟩ 1 none none 3 "cressman" 0 ⟨[1], [none]⟩
      (by with_unfolding_all decide) (by with_unfolding_all decide)
      (by with_unfolding_all decide),
    c9_sparse_or_outside_cells_are_nan_and_harmless.2.1 (fun _ => 1) [] [] 1
      none none 3 "cressman" (0, 0) [] (by simp),
    c9_sparse_or_outside_cells_are_nan_and_harmless.2.2.1 [0, 2, 0] [0, 0, 2] [1, 2, 3]
      ⟨[1, 1], [1]⟩ ⟨[1, 1], [1]⟩ [(0, 1, 2)] (fun _ => -1) 0 ⟨[1, 1], [none]⟩
      (by with_unfolding_all decide) (by with_unfolding_all decide)
      (by with_unfolding_all decide),
    c9_sparse_or_outside_cells_are_nan_and_harmless.2.2.2 ⟨[], [], fun _ => 0⟩
      [] [] [] [] (0, 0)⟩

theorem swap_inj (a b : Nat × Nat) (hc : (a.2, a.1) = (b.2, b.1)) : a = b := by
  rw [Prod.ext_iff] at hc ⊢
  exact ⟨hc.2, hc.1⟩

theorem addEdge_step (acc : List (Nat × Nat)) (e : Nat × Nat) (he : e.1 ≠ e.2)
    (hinv : ∀ f : Nat × Nat, f.1 ≠ f.2 →
      acc.count f + acc.count (f.2, f.1) ≤ 1) :
    (∀ x ∈ addEdge acc e, x ∈ acc ∨ x = e) ∧
    (∀ f : Nat × Nat, f.1 ≠ f.2 →
      (addEdge acc e).count f + (addEdge acc e).count (f.2, f.1) =
        if f = e ∨ (f.2, f.1) = e then 1 - (acc.count f + acc.count (f.2, f.1))
        else acc.count f + acc.count (f.2, f.1)) := by
  have hswap_e : (e.2, e.1) ≠ e := fun hc => he (congrArg Prod.snd hc)
  by_cases h1 : e ∈ acc
  · have hres : addEdge acc e = acc.erase e := by
      unfold addEdge; rw [if_pos h1]
    refine ⟨fun x hx => Or.inl (List.mem_of_mem_erase (hres ▸ hx)), fun f hf => ?_⟩
    have hle := hinv f hf
    have hcf : (acc.erase e).count f = acc.count f - (if e = f then 1 else 0) := by
      simpa using List.count_erase f e acc
    have hcs : (acc.erase e).count (f.2, f.1) =
        acc.count (f.2, f.1) - (if e = (f.2, f.1) then 1 else 0) := by
      simpa using List.count_erase (f.2, f.1) e acc
    rw [hres, hcf, hcs]
    by_cases hfe : f = e
    · have hpos : 0 < acc.count f := List.count_pos_iff.2 (by rw [hfe]; exact h1)
      rw [if_pos (Or.inl hfe), if_pos hfe.symm,
        if_neg (show ¬(e = (f.2, f.1)) from
          fun hc => hf (congrArg Prod.fst (hfe.trans hc)))]
      omega
    · by_cases hfs : (f.2, f.1) = e
      · have hpos : 0 < acc.count (f.2, f.1) :=
          List.count_pos_iff.2 (by rw [hfs]; exact h1)
        rw [if_pos (Or.inr hfs), if_neg (show ¬(e = f) from fun hc => hfe hc.symm),
          if_pos hfs.symm]
        omega
      · rw [if_neg (show ¬(f = e ∨ (f.2, f.1) = e) from fun hc => hc.elim hfe hfs),
          if_neg (show ¬(e = f) from fun hc => hfe hc.symm),
          if_neg (show ¬(e = (f.2, f.1)) from fun hc => hfs hc.symm)]
        omega
  · by_cases h2 : (e.2, e.1) ∈ acc
    · have hres : addEdge acc e = acc.erase (e.2, e.1) := by
        unfold addEdge; rw [if_neg h1, if_pos h2]
      refine ⟨fun x hx => Or.inl (List.mem_of_mem_erase (hres ▸ hx)), fun f hf => ?_⟩
      have hle := hinv f hf
      have hcf : (acc.erase (e.2, e.1)).count f =
          acc.count f - (if (e.2, e.1) = f then 1 else 0) := by
        simpa using List.count_erase f (e.2, e.1) acc
      have hcs : (acc.erase (e.2, e.1)).count (f.2, f.1) =
          acc.count (f.2, f.1) - (if (e.2, e.1) = (f.2, f.1) then 1 else 0) := by
        simpa using List.count_erase (f.2, f.1) (e.2, e.1) acc
      rw [hres, hcf, hcs]
      by_cases hfe : f = e
      · have hswf : (f.2, f.1) = (e.2, e.1) := congrArg (fun p : Nat × Nat => (p.2, p.1)) hfe
        have hpos : 0 < acc.count (f.2, f.1) :=
          List.count_pos_iff.2 (by rw [hswf]; exact h2)
        rw [if_pos (Or.inl hfe),
          if_neg (show ¬((e.2, e.1) = f) from fun hc => hswap_e (hc.trans hfe)),
          if_pos hswf.symm]
        omega
      · by_cases hfs : (f.2, f.1) = e
        · have hfse : f = (e.2, e.1) := by
            rw [← hfs]
          have hpos : 0 < acc.count f := List.count_pos_iff.2 (by rw [hfse]; exact h2)
          rw [if_pos (Or.inr hfs), if_pos hfse.symm,
            if_neg (show ¬((e.2, e.1) = (f.2, f.1)) from
              fun hc => hfe (swap_inj e f hc).symm)]
          omega
        · have hne1 : (e.2, e.1) ≠ f := fun hc => hfs (by
            have h := congrArg (fun p : Nat × Nat => (p.2, p.1)) hc
            exact h.symm)
          rw [if_neg (show ¬(f = e ∨ (f.2, f.1) = e) from fun hc => hc.elim hfe hfs),
            if_neg hne1,
            if_neg (show ¬((e.2, e.1) = (f.2, f.1)) from
              fun hc => hfe (swap_inj e f hc).symm)]
          omega
    · have hres : addEdge acc e = acc ++ [e] := by
        unfold addEdge; rw [if_neg h1, if_neg h2]
      refine ⟨?_, fun f hf => ?_⟩
      · intro x hx
        rw [hres] at hx
        rcases List.mem_append.1 hx with hx | hx
        · exact Or.inl hx
        · exact Or.inr (List.mem_singleton.1 hx)
      · have hce : acc.count e = 0 := List.count_eq_zero.2 h1
        have hcs0 : acc.count (e.2, e.1) = 0 := List.count_eq_zero.2 h2
        have hf1 : List.count f [e] = if e = f then 1 else 0 := by
          simp [List.count_cons]
        have hf2 : List.count (f.2, f.1) [e] = if e = (f.2, f.1) then 1 else 0 := by
          simp [List.count_cons]
        rw [hres, List.count_append, List.count_append, hf1, hf2]
        by_cases hfe : f = e
        · have hce' : acc.count f = 0 := by rw [hfe]; exact hce
          have hcs0' : acc.count (f.2, f.1) = 0 := by
            rw [congrArg (fun p : Nat × Nat => (p.2, p.1)) hfe]; exact hcs0
          rw [if_pos (Or.inl hfe), if_pos hfe.symm,
            if_neg (show ¬(e = (f.2, f.1)) from
              fun hc => hf (congrArg Prod.fst (hfe.trans hc)))]
          omega
        · by_cases hfs : (f.2, f.1) = e
          · have hfse : f = (e.2, e.1) := by
              rw [← hfs]
            have hcf0 : acc.count f = 0 := by rw [hfse]; exact hcs0
            have hcsf : acc.count (f.2, f.1) = 0 := by rw [hfs]; exact hce
            rw [if_pos (Or.inr hfs), if_neg (show ¬(e = f) from fun hc => hfe hc.symm),
              if_pos hfs.symm]
            omega
          · rw [if_neg (show ¬(f = e ∨ (f.2, f.1) = e) from fun hc => hc.elim hfe hfs),
              if_neg (show ¬(e = f) from fun hc => hfe hc.symm),
              if_neg (show ¬(e = (f.2, f.1)) from fun hc => hfs hc.symm)]
            omega

theorem edges_fold_spec :
    ∀ (L acc : List (Nat × Nat)),
      (∀ x ∈ L, x.1 ≠ x.2) →
      (∀ f : Nat × Nat, f.1 ≠ f.2 → acc.count f + acc.count (f.2, f.1) ≤ 1) →
      (∀ x ∈ L.foldl addEdge acc, x ∈ acc ∨ x ∈ L) ∧
      (∀ f : Nat × Nat, f.1 ≠ f.2 →
        (L.foldl addEdge acc).count f + (L.foldl addEdge acc).count (f.2, f.1) ≤ 1) ∧
      (∀ f : Nat × Nat, f.1 ≠ f.2 →
        (L.foldl addEdge acc).count f + (L.foldl addEdge acc).count (f.2, f.1) =
          (acc.count f + acc.count (f.2, f.1) + (L.count f + L.count (f.2, f.1))) % 2) := by
  intro L
  induction L with
  | nil =>
      intro acc hnl hinv
      refine ⟨fun x hx => Or.inl hx, hinv, fun f hf => ?_⟩
      have := hinv f hf
      simp only [List.foldl_nil, List.count_nil]
      omega
  | cons e L ih =>
      intro acc hnl hinv
      have he := hnl e (List.mem_cons_self e L)
      obtain ⟨hsub, hstep⟩ := addEdge_step acc e he hinv
      have hinv' : ∀ f : Nat × Nat, f.1 ≠ f.2 →
          (addEdge acc e).count f + (addEdge acc e).count (f.2, f.1) ≤ 1 := by
        intro f hf
        rw [hstep f hf]
        have := hinv f hf
        split <;> omega
      obtain ⟨ih_sub, ih_inv, ih_par⟩ :=
        ih (addEdge acc e) (fun x hx => hnl x (List.mem_cons_of_mem _ hx)) hinv'
      refine ⟨?_, ?_, ?_⟩
      · intro x hx
        rcases ih_sub x (by simpa [List.foldl_cons] using hx) with hx' | hx'
        · rcases hsub x hx' with h | h
          · exact Or.inl h
          · exact Or.inr (h ▸ List.mem_cons_self e L)
        · exact Or.inr (List.mem_cons_of_mem _ hx')
      · intro f hf
        simpa [List.foldl_cons] using ih_inv f hf
      · intro f hf
        have hc1 : (e :: L).count f = L.count f + (if e = f then 1 else 0) := by
          simp [List.count_cons]
        have hc2 : (e :: L).count (f.2, f.1) =
            L.count (f.2, f.1) + (if e = (f.2, f.1) then 1 else 0) := by
          simp [List.count_cons]
        have hip := ih_par f hf
        rw [hstep f hf] at hip
        have hle := hinv f hf
        simp only [List.foldl_cons]
        rw [hip, hc1, hc2]
        by_cases hfe : f = e
        · rw [if_pos (Or.inl hfe), if_pos hfe.symm,
            if_neg (show ¬(e = (f.2, f.1)) from
              fun hc => hf (congrArg Prod.fst (hfe.trans hc)))]
          omega
        · by_cases hfs : (f.2, f.1) = e
          · rw [if_pos (Or.inr hfs), if_neg (show ¬(e = f) from fun hc => hfe hc.symm),
              if_pos hfs.symm]
            omega
          · rw [if_neg (show ¬(f = e ∨ (f.2, f.1) = e) from fun hc => hc.elim hfe hfs),
              if_neg (show ¬(e = f) from fun hc => hfe hc.symm),
              if_neg (show ¬(e = (f.2, f.1)) from fun hc => hfs hc.symm)]
            omega

theorem foldl_nested_eq_bind (simplices : List (Nat × Nat × Nat)) (ts : List Nat) :
    ∀ acc, ts.foldl (fun acc t => (triEdges simplices t).foldl addEdge acc) acc =
      (ts.bind (triEdges simplices)).foldl addEdge acc := by
  induction ts with
  | nil => intro acc; rfl
  | cons t ts ih =>
      intro acc
      simp only [List.foldl_cons, List.cons_bind, List.foldl_append, ih]

/-- C8: `find_local_boundary` keeps exactly the directed triangle edges
whose undirected class is contributed once: every returned edge is one
of the contributed directed edges; an edge whose class is contributed
exactly once is returned as contributed; and when the same undirected
edge is contributed twice (two triangles sharing it) both copies cancel
and neither orientation appears. -/
theorem c8_shared_edges_cancel_in_local_boundary (simplices : List (Nat × Nat × Nat))
    (tris : List Nat)
    (hnl : ∀ x ∈ tris.bind (triEdges simplices), x.1 ≠ x.2) :
    (∀ x ∈ find_local_boundary simplices tris, x ∈ tris.bind (triEdges simplices)) ∧
    (∀ e ∈ tris.bind (triEdges simplices),
      (tris.bind (triEdges simplices)).count e +
        (tris.bind (triEdges simplices)).count (e.2, e.1) = 1 →
      e ∈ find_local_boundary simplices tris) ∧
    (∀ e : Nat × Nat, e.1 ≠ e.2 →
      (tris.bind (triEdges simplices)).count e +
        (tris.bind (triEdges simplices)).count (e.2, e.1) = 2 →
      e ∉ find_local_boundary simplices tris ∧
        (e.2, e.1) ∉ find_local_boundary simplices tris) := by
  have hfl : find_local_boundary simplices tris =
      (tris.bind (triEdges simplices)).foldl addEdge [] := by
    unfold find_local_boundary
    exact foldl_nested_eq_bind simplices tris []
  obtain ⟨hsub, hinv, hpar⟩ :=
    edges_fold_spec (tris.bind (triEdges simplices)) [] hnl (by simp)
  refine ⟨?_, ?_, ?_⟩
  · intro x hx
    rw [hfl] at hx
    rcases hsub x hx with h | h
    · exact absurd h (List.not_mem_nil x)
    · exact h
  · intro e he hcount
    have hne := hnl e he
    have hp := hpar e hne
    rw [List.count_nil, List.count_nil, hcount] at hp
    have hmem : e ∈ (tris.bind (triEdges simplices)).foldl addEdge [] ∨
        (e.2, e.1) ∈ (tris.bind (triEdges simplices)).foldl addEdge [] := by
      by_contra hno
      push_neg at hno
      have h1 := List.count_eq_zero.2 hno.1
      have h2 := List.count_eq_zero.2 hno.2
      omega
    rw [hfl]
    rcases hmem with h | h
    · exact h
    · exfalso
      have hmem2 : (e.2, e.1) ∈ tris.bind (triEdges simplices) := by
        rcases hsub (e.2, e.1) h with hc | hc
        · exact absurd hc (List.not_mem_nil _)
        · exact hc
      have hc1 : 0 < (tris.bind (triEdges simplices)).count e :=
        List.count_pos_iff.2 he
      have hc2 : 0 < (tris.bind (triEdges simplices)).count (e.2, e.1) :=
        List.count_pos_iff.2 hmem2
      omega
  · intro e hne hcount
    have hp := hpar e hne
    rw [List.count_nil, List.count_nil, hcount] at hp
    rw [hfl]
    constructor
    · intro hc
      have := List.count_pos_iff.2 hc
      omega
    · intro hc
      have := List.count_pos_iff.2 hc
      omega

/-- C8 witness: two triangles `(0,1,2)` and `(1,3,2)` sharing exactly
the undirected edge `{1,2}`: the boundary is exactly the 4 outer edges,
the once-contributed edge `(0,1)` is returned (via the theorem), and
the twice-contributed shared edge appears in neither orientation (via
the theorem). -/
theorem c8_shared_edges_cancel_in_local_boundary_witness :
    find_local_boundary [(0, 1, 2), (1, 3, 2)] [0, 1] =
      [(0, 1), (2, 0), (1, 3), (3, 2)] ∧
    (0, 1) ∈ find_local_boundary [(0, 1, 2), (1, 3, 2)] [0, 1] ∧
    (1, 2) ∉ find_local_boundary [(0, 1, 2), (1, 3, 2)] [0, 1] ∧
    (2, 1) ∉ find_local_boundary [(0, 1, 2), (1, 3, 2)] [0, 1] :=
  ⟨by decide,
    (c8_shared_edges_cancel_in_local_boundary [(0, 1, 2), (1, 3, 2)] [0, 1]
      (by decide)).2.1 (0, 1) (by decide) (by decide),
    ((c8_shared_edges_cancel_in_local_boundary [(0, 1, 2), (1, 3, 2)] [0, 1]
      (by decide)).2.2 (1, 2) (by decide) (by decide)).1,
    ((c8_shared_edges_cancel_in_local_boundary [(0, 1, 2), (1, 3, 2)] [0, 1]
      (by decide)).2.2 (1, 2) (by decide) (by decide)).2⟩

theorem sum_map_div_comp {α : Type} (l : List α) (f : α → ℚ) (c : ℚ) :
    (l.map (fun x => f x / c)).sum = (l.map f).sum / c := by
  induction l with
  | nil => simp
  | cons x xs ih => simp [ih, add_div]

theorem nn_walk_fold_spec (tri : Triangulation) (info : List TriInfo)
    (neighbors : List Nat) (ev : List Nat) (xp yp vals : List ℚ) (grid : Pt) :
    ∀ (L : List Nat) (s s' : WalkState),
      (∃ ps : List (ℚ × ℚ),
        (∀ p ∈ ps, 0 ≤ p.1 ∧ p.2 ∈ vals) ∧
        s.area_list.sum = (ps.map (fun p => p.1 * p.2)).sum ∧
        s.total_area = (ps.map (fun p => p.1)).sum) →
      foldlExcept (nnStep tri info neighbors ev xp yp vals grid) s L = .ok s' →
      ∃ ps : List (ℚ × ℚ),
        (∀ p ∈ ps, 0 ≤ p.1 ∧ p.2 ∈ vals) ∧
        s'.area_list.sum = (ps.map (fun p => p.1 * p.2)).sum ∧
        s'.total_area = (ps.map (fun p => p.1)).sum := by
  intro L
  induction L with
  | nil =>
      intro s s' hps hf
      simp only [foldlExcept] at hf
      cases hf
      exact hps
  | cons i L ih =>
      intro s s' hps hf
      simp only [foldlExcept, bind, Except.bind] at hf
      cases hstep : nnStep tri info neighbors ev xp yp vals grid s i with
      | error e => rw [hstep] at hf; cases hf
      | ok s1 =>
          rw [hstep] at hf
          refine ih s1 s' ?_ hf
          obtain ⟨ps, hp1, hp2, hp3⟩ := hps
          unfold nnStep at hstep
          dsimp only at hstep
          cases hcc : circumcenter grid
              (tri.points.getD (ev.getD ((i + 2) % ev.length) 0) (0, 0))
              (tri.points.getD s.p2 (0, 0)) with
          | error e =>
              rw [hcc] at hstep
              cases hstep
              exact ⟨ps, hp1, by simpa using hp2, hp3⟩
          | ok c2 =>
              rw [hcc] at hstep
              simp only [bind, Except.bind] at hstep
              cases hhull : ConvexHullVertices
                  (s.polygon ++ [c2] ++ incidentCCs tri info neighbors s.p2) with
              | error e => rw [hhull] at hstep; cases hstep
              | ok pts =>
                  rw [hhull] at hstep
                  cases hlook : lookup_value (tri.points.getD s.p2 (0, 0)) xp yp vals with
                  | error e => rw [hlook] at hstep; cases hstep
                  | ok v =>
                      rw [hlook] at hstep
                      cases hstep
                      refine ⟨ps ++ [(polygon_area pts, v)], ?_, ?_, ?_⟩
                      · intro p hp
                        rcases List.mem_append.1 hp with hp | hp
                        · exact hp1 p hp
                        · rw [List.mem_singleton.1 hp]
                          exact ⟨polygon_area_nonneg pts,
                            lookup_value_mem _ xp yp vals v hlook⟩
                      · simp [hp2]
                      · simp [hp3]

theorem le_sum_weighted (ps : List (ℚ × ℚ)) (b : ℚ)
    (h : ∀ p ∈ ps, 0 ≤ p.1 ∧ b ≤ p.2) :
    b * (ps.map (fun p => p.1)).sum ≤ (ps.map (fun p => p.1 * p.2)).sum := by
  induction ps with
  | nil => simp
  | cons p ps ih =>
      have hp := h p (List.mem_cons_self p ps)
      have hrest := ih (fun q hq => h q (List.mem_cons_of_mem _ hq))
      simp only [List.map_cons, List.sum_cons, mul_add]
      have : b * p.1 ≤ p.1 * p.2 := by
        rw [mul_comm]
        exact mul_le_mul_of_nonneg_left hp.2 hp.1
      linarith

theorem sum_weighted_le (ps : List (ℚ × ℚ)) (B : ℚ)
    (h : ∀ p ∈ ps, 0 ≤ p.1 ∧ p.2 ≤ B) :
    (ps.map (fun p => p.1 * p.2)).sum ≤ B * (ps.map (fun p => p.1)).sum := by
  induction ps with
  | nil => simp
  | cons p ps ih =>
      have hp := h p (List.mem_cons_self p ps)
      have hrest := ih (fun q hq => h q (List.mem_cons_of_mem _ hq))
      simp only [List.map_cons, List.sum_cons, mul_add]
      have : p.1 * p.2 ≤ B * p.1 := by
        rw [mul_comm B p.1]
        exact mul_le_mul_of_nonneg_left hp.2 hp.1
      linarith

/-- C4: for any grid cell whose boundary walk completes with final
state `s`: if the accumulated `total_area` is not positive the cell is
NaN; if it is positive, the cell value is `weighted_sum / total_area`
for a list of (area, value) pairs in which every area weight is
nonnegative and every value is one of the observation values, the
normalised weights sum to 1, and the value is bounded below and above
by any bound on the contributing values — i.e. it lies within
`[min, max]` of the contributing observation values. -/
theorem c4_cell_is_convex_combination (tri : Triangulation) (info : List TriInfo)
    (neighbors : List Nat) (xp yp vals : List ℚ) (grid : Pt) (s : WalkState)
    (hw : nnWalk tri info neighbors xp yp vals grid = .ok s) :
    (s.total_area ≤ 0 → nnCell tri info neighbors xp yp vals grid = .ok none) ∧
    (0 < s.total_area →
      ∃ ps : List (ℚ × ℚ),
        nnCell tri info neighbors xp yp vals grid =
          .ok (some ((ps.map (fun p => p.1 * p.2)).sum /
            (ps.map (fun p => p.1)).sum)) ∧
        (∀ p ∈ ps, 0 ≤ p.1 ∧ p.2 ∈ vals) ∧
        s.total_area = (ps.map (fun p => p.1)).sum ∧
        (ps.map (fun p => p.1 / (ps.map (fun q => q.1)).sum)).sum = 1 ∧
        (∀ b : ℚ, (∀ p ∈ ps, b ≤ p.2) →
          b ≤ (ps.map (fun p => p.1 * p.2)).sum / (ps.map (fun p => p.1)).sum) ∧
        (∀ B : ℚ, (∀ p ∈ ps, p.2 ≤ B) →
          (ps.map (fun p => p.1 * p.2)).sum / (ps.map (fun p => p.1)).sum ≤ B)) := by
  have hcell : nnCell tri info neighbors xp yp vals grid =
      (if s.total_area > 0 then
        .ok (some (s.area_list.map (fun x => x / s.total_area)).sum)
      else .ok none) := by
    unfold nnCell
    rw [hw]
    rfl
  constructor
  · intro htot
    rw [hcell, if_neg (not_lt.2 htot)]
  · intro htot
    have hinv : ∃ ps : List (ℚ × ℚ),
        (∀ p ∈ ps, 0 ≤ p.1 ∧ p.2 ∈ vals) ∧
        s.area_list.sum = (ps.map (fun p => p.1 * p.2)).sum ∧
        s.total_area = (ps.map (fun p => p.1)).sum := by
      unfold nnWalk at hw
      dsimp only at hw
      cases hev : (order_edges (find_local_boundary tri.simplices neighbors)).map
          (fun seg => seg.1) with
      | nil =>
          rw [hev] at hw
          cases hw
      | cons p1 tl =>
          cases tl with
          | nil =>
              rw [hev] at hw
              cases hw
          | cons p2 rest =>
              rw [hev] at hw
              simp only [bind, Except.bind] at hw
              cases hc1 : circumcenter grid (tri.points.getD p1 (0, 0))
                  (tri.points.getD p2 (0, 0)) with
              | error e => rw [hc1] at hw; cases hw
              | ok c1 =>
                  rw [hc1] at hw
                  exact nn_walk_fold_spec tri info neighbors (p1 :: p2 :: rest)
                    xp yp vals grid (List.range (p1 :: p2 :: rest).length)
                    ⟨[c1], [], 0, p1, p2⟩ s ⟨[], by simp, by simp, by simp⟩ hw
    obtain ⟨ps, hp1, hp2, hp3⟩ := hinv
    have hT : 0 < (ps.map (fun p => p.1)).sum := hp3 ▸ htot
    refine ⟨ps, ?_, hp1, hp3, ?_, ?_, ?_⟩
    · rw [hcell, if_pos htot, sum_map_div, hp2, hp3]
    · rw [sum_map_div_comp, div_self (ne_of_gt hT)]
    · intro b hb
      rw [le_div_iff hT]
      exact le_sum_weighted ps b (fun p hp => ⟨(hp1 p hp).1, hb p hp⟩)
    · intro B hB
      rw [div_le_iff hT]
      exact sum_weighted_le ps B (fun p hp => ⟨(hp1 p hp).1, hB p hp⟩)

/-- C4 witness: the unit-square observations `0, 1, 2, 3` (scaled to
side 2) with their two Delaunay triangles, grid point `(1, 1)` at the
centre: the walk accumulates `total_area = 2 > 0` and the theorem
yields the convex-combination form of the cell value (which evaluates
to `3/2`, the symmetric average). -/
theorem c4_cell_is_convex_combination_witness :
    0 < (⟨[(1, 0)], [1/2, 3/2, 1, 0], 2, 0, 1⟩ : WalkState).total_area ∧
    ∃ ps : List (ℚ × ℚ),
      nnCell ⟨[(0, 0), (2, 0), (0, 2), (2, 2)], [(0, 1, 2), (1, 3, 2)], fun _ => 0⟩
        [⟨(1, 1), 2⟩, ⟨(1, 1), 2⟩] [0, 1] [0, 2, 0, 2] [0, 0, 2, 2] [0, 1, 2, 3] (1, 1) =
        .ok (some ((ps.map (fun p => p.1 * p.2)).sum / (ps.map (fun p => p.1)).sum)) ∧
      (∀ p ∈ ps, 0 ≤ p.1 ∧ p.2 ∈ ([0, 1, 2, 3] : List ℚ)) ∧
      (⟨[(1, 0)], [1/2, 3/2, 1, 0], 2, 0, 1⟩ : WalkState).total_area =
        (ps.map (fun p => p.1)).sum ∧
      (ps.map (fun p => p.1 / (ps.map (fun q => q.1)).sum)).sum = 1 ∧
      (∀ b : ℚ, (∀ p ∈ ps, b ≤ p.2) →
        b ≤ (ps.map (fun p => p.1 * p.2)).sum / (ps.map (fun p => p.1)).sum) ∧
      (∀ B : ℚ, (∀ p ∈ ps, p.2 ≤ B) →
        (ps.map (fun p => p.1 * p.2)).sum / (ps.map (fun p => p.1)).sum ≤ B) :=
  ⟨by with_unfolding_all decide,
    (c4_cell_is_convex_combination
      ⟨[(0, 0), (2, 0), (0, 2), (2, 2)], [(0, 1, 2), (1, 3, 2)], fun _ => 0⟩
      [⟨(1, 1), 2⟩, ⟨(1, 1), 2⟩] [0, 1] [0, 2, 0, 2] [0, 0, 2, 2] [0, 1, 2, 3] (1, 1)
      ⟨[(1, 0)], [1/2, 3/2, 1, 0], 2, 0, 1⟩
      (by with_unfolding_all decide)).2 (by with_unfolding_all decide)⟩
